import Mathlib

/-!
Verification of `backend/services/knowledge_chunking_service.py`
(class `KnowledgeChunkingService`).

The Python file defines most methods twice inside the same class body; in
Python the later definition shadows the earlier one, so the effective
implementations are the second copies (`chunk_knowledge_base` at lines
338-363, `process_knowledge_chunk` at 365-409, `_aggregate_processed_chunks`
at 472-501, `get_condensed_knowledge_for_prompt` at 503-529,
`save_processed_knowledge` at 542-545, `load_processed_knowledge` at
547-555).  `_parse_structured_response` (133-174) is defined once.  The
definitions below embed those effective implementations.

Modelling conventions:
* Python `int` is `Int`; token sequences are `List Nat` (the tiktoken
  encoding of a text is an opaque list of token ids, and
  `chunk_knowledge_base` only manipulates that list).
* The unbounded `while` loop of `chunk_knowledge_base` is embedded with an
  explicit fuel parameter; `none` means the loop has not finished within the
  given fuel, and a result that is `none` for every fuel is a
  non-terminating run.
* Python dict-shaped results are structures whose optional keys are
  `Option` fields (`none` = key absent).
* `list(set(xs))` is embedded as `xs.dedup`; the iteration order of a
  Python set is implementation defined, so theorems about deduplicated
  fields only use order-insensitive consequences (membership, `toFinset`,
  `Nodup`) except where a singleton makes the order irrelevant.
-/

namespace KnowledgeChunkingService

/-! ### Python list slicing

`tokens[start:end]` for `int` indices, as used by `chunk_knowledge_base`
(line 351).  Negative indices count from the end, and out-of-range bounds
are clamped. -/

def pySlice (l : List Nat) (i j : Int) : List Nat :=
  let n : Int := l.length
  let i' : Int := if i < 0 then max (n + i) 0 else min i n
  let j' : Int := if j < 0 then max (n + j) 0 else min j n
  (l.take j'.toNat).drop i'.toNat

/-! ### `chunk_knowledge_base` (effective copy, lines 338-363)

```
start_idx = 0
while start_idx < len(tokens):
    end_idx = min(start_idx + self.max_tokens_per_chunk, len(tokens))
    chunk_tokens = tokens[start_idx:end_idx]
    chunks.append(self.encoding.decode(chunk_tokens))
    start_idx = end_idx - self.overlap_tokens
    if start_idx >= len(tokens):
        break
```

The decode step is the identity on the token list here (chunks are kept as
token lists; `decode` is a bijection on what `encode` produced and plays no
role in the claims about chunk counts and termination). -/

def chunkLoop (maxT overlap : Int) (tokens : List Nat) :
    Nat → Int → List (List Nat) → Option (List (List Nat))
  | 0, _, _ => none
  | fuel + 1, start, acc =>
      if start < (tokens.length : Int) then
        let endI : Int := min (start + maxT) (tokens.length : Int)
        let acc' := acc ++ [pySlice tokens start endI]
        let start' := endI - overlap
        if start' ≥ (tokens.length : Int) then some acc'
        else chunkLoop maxT overlap tokens fuel start' acc'
      else some acc

def chunk_knowledge_base (maxT overlap : Int) (tokens : List Nat)
    (fuel : Nat) : Option (List (List Nat)) :=
  chunkLoop maxT overlap tokens fuel 0 []

/-! ### Python string primitives

Embedded on the character lists underlying `String`, mirroring the Python
`str` methods the service uses (`strip`, `upper`, `startswith`, slicing,
`split('\n')`, `'\n'.join`).  `upper` is the ASCII case map, which agrees
with Python on every string the service manipulates. -/

def isPyWs (c : Char) : Bool :=
  c = ' ' ∨ c = '\t' ∨ c = '\n' ∨ c = '\r' ∨ c = Char.ofNat 11 ∨ c = Char.ofNat 12

/-- `s.strip()` -/
def pyStrip (s : String) : String :=
  String.mk (((s.data.dropWhile isPyWs).reverse.dropWhile isPyWs).reverse)

/-- `s.upper()` -/
def pyUpper (s : String) : String := String.mk (s.data.map Char.toUpper)

def chPre : List Char → List Char → Bool
  | [], _ => true
  | _ :: _, [] => false
  | p :: ps, c :: cs => p = c && chPre ps cs

/-- `s.startswith(pre)` -/
def strStarts (s pre : String) : Bool := chPre pre.data s.data

/-- `s[n:]` for a nonnegative `n` -/
def pyDrop (s : String) (n : Nat) : String := String.mk (s.data.drop n)

def splitNlAux : List Char → List Char → List String
  | acc, [] => [String.mk acc.reverse]
  | acc, c :: cs =>
      if c = '\n' then String.mk acc.reverse :: splitNlAux [] cs
      else splitNlAux (c :: acc) cs

/-- `s.split('\n')` -/
def splitNl (s : String) : List String := splitNlAux [] s.data

/-- Decimal digits of `n`, most significant first, prepended to `acc`; the
fuel argument is always called with `n + 1`, which suffices. -/
def natCharsAux : Nat → Nat → List Char → List Char
  | 0, _, acc => acc
  | fuel + 1, n, acc =>
      if n < 10 then Nat.digitChar n :: acc
      else natCharsAux fuel (n / 10) (Nat.digitChar (n % 10) :: acc)

def natChars (n : Nat) : List Char := natCharsAux (n + 1) n []

/-- `sep.join(parts)` -/
def joinSep (sep : String) : List String → String
  | [] => ""
  | [s] => s
  | s :: rest => s ++ sep ++ joinSep sep rest

/-! ### `_parse_structured_response` (lines 133-174)

Scans the lines of the LLM response with a current-section cursor.  A line
whose uppercased, stripped text starts with one of the five section
keywords switches the cursor; a stripped line starting with `"- "` while a
cursor is active contributes its item (stripped, if nonempty) to that
section. -/

inductive SectionTag where
  | principles | strategies | metrics | insights | quotes
deriving DecidableEq

structure ParseResult where
  principles : List String
  strategies : List String
  metrics : List String
  insights : List String
  quotes : List String
deriving DecidableEq

def ParseResult.empty : ParseResult := ⟨[], [], [], [], []⟩

def ParseResult.add (r : ParseResult) (t : SectionTag) (item : String) :
    ParseResult :=
  match t with
  | .principles => { r with principles := r.principles ++ [item] }
  | .strategies => { r with strategies := r.strategies ++ [item] }
  | .metrics => { r with metrics := r.metrics ++ [item] }
  | .insights => { r with insights := r.insights ++ [item] }
  | .quotes => { r with quotes := r.quotes ++ [item] }

/-- The section-header test of lines 152-166: `line.upper().startswith(...)`,
checked in the source's `if`/`elif` order. -/
def headerOf (line : String) : Option SectionTag :=
  let u := pyUpper line
  if strStarts u "PRINCIPLES:" then some .principles
  else if strStarts u "STRATEGIES:" then some .strategies
  else if strStarts u "METRICS:" then some .metrics
  else if strStarts u "INSIGHTS:" then some .insights
  else if strStarts u "QUOTES:" then some .quotes
  else none

/-- Body of the `for line in lines` loop (lines 146-172), one recursive call
per line; `cur` is `current_section`. -/
def parseLines : Option SectionTag → List String → ParseResult → ParseResult
  | _, [], acc => acc
  | cur, rawLine :: rest, acc =>
      let line := pyStrip rawLine
      if line = "" then parseLines cur rest acc
      else
        match headerOf line with
        | some tag => parseLines (some tag) rest acc
        | none =>
            match cur with
            | some tag =>
                if strStarts line "- " then
                  let item := pyStrip (pyDrop line 2)
                  if item = "" then parseLines cur rest acc
                  else parseLines cur rest (acc.add tag item)
                else parseLines cur rest acc
            | none => parseLines cur rest acc

def parse_structured_response (response : String) : ParseResult :=
  parseLines none (splitNl response) ParseResult.empty

/-- Specification-side parser, worded after the claim: scan lines with a
current-section cursor, switch the cursor on recognized section-header
lines (case-insensitive), collect bullet lines (`"- "`, nonempty item after
the marker) into the active section, ignore everything else; lines before
the first recognized header are discarded because the cursor starts out
inactive.  Written as a left fold over the lines with an explicit cursor
state, to be compared with the source-shaped recursion above. -/
def parseSpecStep (st : Option SectionTag × ParseResult) (rawLine : String) :
    Option SectionTag × ParseResult :=
  let line := pyStrip rawLine
  match headerOf line with
  | some tag => (some tag, st.2)
  | none =>
      match st.1 with
      | some tag =>
          if strStarts line "- " ∧ ¬(pyStrip (pyDrop line 2) = "") then
            (st.1, st.2.add tag (pyStrip (pyDrop line 2)))
          else st
      | none => st

def parseSpecScan (response : String) : ParseResult :=
  ((splitNl response).foldl parseSpecStep (none, ParseResult.empty)).2

/-! ### `process_knowledge_chunk` (effective copy, lines 365-409)

The remote summarization step (`await asyncio.to_thread(self.agent.run, …)`)
is a parameter `run`; an exceptional outcome of the `try` block is
`Except.error msg`.  Its successful result is the dict the agent returns,
read with `.get(key, default)`. -/

structure AgentResult where
  summary : Option String
  principles : Option (List String)
  insights : Option (List String)
  quotes : Option (List String)
  metrics : Option (List (String × String))

/-- The dict returned by `process_knowledge_chunk`; `none` marks an absent
key. -/
structure ProcessedChunk where
  chunk_index : Nat
  processed : Bool
  error : Option String
  summary : Option String
  principles : Option (List String)
  strategies : Option (List String)
  insights : Option (List String)
  quotes : Option (List String)
  metrics : Option (List (String × String))
deriving DecidableEq

/-- The instructional prompt built at lines 371-385 (whitespace of the
Python triple-quoted literal reproduced only up to indentation). -/
def processingPrompt (chunkIndex : Nat) (chunk : String) : String :=
  "You are analyzing Warren Buffett knowledge chunk " ++
    String.mk (natChars (chunkIndex + 1)) ++ ".\n\n" ++
  "Your task is to:\n" ++
  "1. Extract the most important investment principles\n" ++
  "2. Identify specific strategies and methodologies\n" ++
  "3. Note any quantitative metrics or criteria mentioned\n" ++
  "4. Capture memorable quotes or key insights\n" ++
  "5. Summarize actionable advice\n\n" ++
  "Knowledge chunk:\n" ++ chunk ++ "\n\n" ++
  "Please provide a structured analysis focusing on practical investment wisdom."

def process_knowledge_chunk (run : String → Except String AgentResult)
    (chunk : String) (chunkIndex : Nat) : ProcessedChunk :=
  match run (processingPrompt chunkIndex chunk) with
  | .ok r =>
      { chunk_index := chunkIndex
        processed := true
        error := none
        summary := some (r.summary.getD "")
        principles := some (r.principles.getD [])
        strategies := none
        insights := some (r.insights.getD [])
        quotes := some (r.quotes.getD [])
        metrics := some (r.metrics.getD []) }
  | .error e =>
      { chunk_index := chunkIndex
        processed := false
        error := some e
        summary := none
        principles := none
        strategies := none
        insights := none
        quotes := none
        metrics := none }

/-! ### `_aggregate_processed_chunks` (effective copy, lines 472-501) -/

structure AggregatedKnowledge where
  investment_principles : List String
  key_insights : List String
  memorable_quotes : List String
  quantitative_metrics : List (String × String)
  chunk_summaries : List String
  total_processed_chunks : Nat
deriving DecidableEq

/-- Python `dict.update`: existing keys are overwritten in place, new keys
are appended in the order of the right-hand dict. -/
def dictUpdate (d e : List (String × String)) : List (String × String) :=
  (d.map fun kv => (kv.1, ((e.lookup kv.1).getD kv.2))) ++
    e.filter fun kv => (d.lookup kv.1).isNone

/-- Truthiness of `chunk.get(key)` for a list-valued key. -/
def truthyList {α : Type} (o : Option (List α)) : Bool :=
  match o with
  | some (_ :: _) => true
  | _ => false

/-- Truthiness of `chunk.get('summary')`. -/
def truthyStr (o : Option String) : Bool :=
  match o with
  | some s => !(s = "")
  | none => false

/-- State of the five accumulators of the aggregation loop. -/
structure AggAcc where
  all_principles : List String
  all_insights : List String
  all_quotes : List String
  all_metrics : List (String × String)
  summaries : List String

def aggStep (acc : AggAcc) (c : ProcessedChunk) : AggAcc :=
  let a1 := if truthyList c.principles then
    { acc with all_principles := acc.all_principles ++ c.principles.getD [] }
    else acc
  let a2 := if truthyList c.insights then
    { a1 with all_insights := a1.all_insights ++ c.insights.getD [] } else a1
  let a3 := if truthyList c.quotes then
    { a2 with all_quotes := a2.all_quotes ++ c.quotes.getD [] } else a2
  let a4 := if truthyList c.metrics then
    { a3 with all_metrics := dictUpdate a3.all_metrics (c.metrics.getD []) }
    else a3
  if truthyStr c.summary then
    { a4 with summaries := a4.summaries ++ [c.summary.getD ""] } else a4

def aggregate_processed_chunks (processed_chunks : List ProcessedChunk) :
    AggregatedKnowledge :=
  let acc := processed_chunks.foldl aggStep ⟨[], [], [], [], []⟩
  { investment_principles := acc.all_principles.dedup
    key_insights := acc.all_insights.dedup
    memorable_quotes := acc.all_quotes.dedup
    quantitative_metrics := acc.all_metrics
    chunk_summaries := acc.summaries
    total_processed_chunks := processed_chunks.length }

/-! ### JSON values and `json.dump(..., indent=2)` / `json.loads`

`save_processed_knowledge` (effective copy, lines 542-545) writes
`json.dump(self.processed_knowledge, f, indent=2, ensure_ascii=False)`;
`load_processed_knowledge` (lines 547-555) reads the whole file back with
`json.load`.  The records the service ever writes contain objects, arrays,
strings and ints, so `JVal` has no float constructor (the parser rejects a
float literal instead). -/

inductive JVal where
  | jnull : JVal
  | jbool : Bool → JVal
  | jint : Int → JVal
  | jstr : String → JVal
  | jarr : List JVal → JVal
  | jobj : List (String × JVal) → JVal

open JVal

def hexDigit (n : Nat) : Char :=
  if n < 10 then Char.ofNat (48 + n) else Char.ofNat (87 + n)

/-- String escaping of `json.dump` with `ensure_ascii=False`: quote,
backslash and the named control characters get two-character escapes, the
remaining control characters a `\u00XX` escape, everything else is written
raw. -/
def escChar (c : Char) (t : List Char) : List Char :=
  if c = '"' then '\\' :: '"' :: t
  else if c = '\\' then '\\' :: '\\' :: t
  else if c = '\n' then '\\' :: 'n' :: t
  else if c = '\t' then '\\' :: 't' :: t
  else if c = '\r' then '\\' :: 'r' :: t
  else if c = Char.ofNat 8 then '\\' :: 'b' :: t
  else if c = Char.ofNat 12 then '\\' :: 'f' :: t
  else if c.toNat < 32 then
    '\\' :: 'u' :: '0' :: '0' :: hexDigit (c.toNat / 16) :: hexDigit (c.toNat % 16) :: t
  else c :: t

def escStr : List Char → List Char → List Char
  | [], t => t
  | c :: cs, t => escChar c (escStr cs t)

def strChars (s : String) (t : List Char) : List Char :=
  '"' :: escStr s.data ('"' :: t)

def intChars (i : Int) (t : List Char) : List Char :=
  if i < 0 then '-' :: (natChars i.natAbs ++ t)
  else natChars i.natAbs ++ t

def spacesPrep (n : Nat) (t : List Char) : List Char :=
  List.replicate n ' ' ++ t

mutual

/-- Characters of `json.dumps(v, indent=2, ensure_ascii=False)` at the given
current indentation, prepended to `t`. -/
def renderV : JVal → Nat → List Char → List Char
  | jnull, _, t => 'n' :: 'u' :: 'l' :: 'l' :: t
  | jbool true, _, t => 't' :: 'r' :: 'u' :: 'e' :: t
  | jbool false, _, t => 'f' :: 'a' :: 'l' :: 's' :: 'e' :: t
  | jint i, _, t => intChars i t
  | jstr s, _, t => strChars s t
  | jarr [], _, t => '[' :: ']' :: t
  | jarr (x :: xs), ind, t =>
      '[' :: '\n' :: spacesPrep (ind + 2)
        (renderV x (ind + 2) (renderArrRest xs ind t))
  | jobj [], _, t => '\x7b' :: '\x7d' :: t
  | jobj (kv :: kvs), ind, t =>
      '\x7b' :: '\n' :: spacesPrep (ind + 2)
        (strChars kv.1 (':' :: ' ' :: renderV kv.2 (ind + 2) (renderObjRest kvs ind t)))

def renderArrRest : List JVal → Nat → List Char → List Char
  | [], ind, t => '\n' :: spacesPrep ind (']' :: t)
  | y :: ys, ind, t =>
      ',' :: '\n' :: spacesPrep (ind + 2)
        (renderV y (ind + 2) (renderArrRest ys ind t))

def renderObjRest : List (String × JVal) → Nat → List Char → List Char
  | [], ind, t => '\n' :: spacesPrep ind ('\x7d' :: t)
  | kv :: kvs, ind, t =>
      ',' :: '\n' :: spacesPrep (ind + 2)
        (strChars kv.1 (':' :: ' ' :: renderV kv.2 (ind + 2) (renderObjRest kvs ind t)))

end

/-- File contents written by `json.dump(v, f, indent=2, ensure_ascii=False)`
(no trailing newline). -/
def dumpPretty (v : JVal) : String :=
  String.mk (renderV v 0 [])

def skipWs : List Char → List Char
  | [] => []
  | c :: cs =>
      if c = ' ' ∨ c = '\n' ∨ c = '\t' ∨ c = '\r' then skipWs cs else c :: cs

def hexVal (c : Char) : Option Nat :=
  if '0' ≤ c ∧ c ≤ '9' then some (c.toNat - 48)
  else if 'a' ≤ c ∧ c ≤ 'f' then some (c.toNat - 87)
  else if 'A' ≤ c ∧ c ≤ 'F' then some (c.toNat - 55)
  else none

def unescape (c : Char) : Option Char :=
  if c = '"' then some '"'
  else if c = '\\' then some '\\'
  else if c = '/' then some '/'
  else if c = 'b' then some (Char.ofNat 8)
  else if c = 'f' then some (Char.ofNat 12)
  else if c = 'n' then some '\n'
  else if c = 'r' then some '\r'
  else if c = 't' then some '\t'
  else none

/-- JSON string body after the opening quote: collect characters (reversed
in `acc`) until an unescaped closing quote. -/
def parseStrAux : List Char → List Char → Option (String × List Char)
  | _, [] => none
  | acc, c :: cs =>
      if c = '"' then some (String.mk acc.reverse, cs)
      else if c = '\\' then
        match cs with
        | [] => none
        | e :: cs' =>
            if e = 'u' then
              match cs' with
              | h1 :: h2 :: h3 :: h4 :: cs'' =>
                  match hexVal h1, hexVal h2, hexVal h3, hexVal h4 with
                  | some a, some b, some c4, some d =>
                      let code := ((a * 16 + b) * 16 + c4) * 16 + d
                      if code.isValidChar then
                        parseStrAux (Char.ofNat code :: acc) cs''
                      else none
                  | _, _, _, _ => none
              | _ => none
            else
              match unescape e with
              | some c' => parseStrAux (c' :: acc) cs'
              | none => none
      else if c.toNat < 32 then none
      else parseStrAux (c :: acc) cs

def parseDigitsAux : Nat → List Char → Nat × List Char
  | acc, [] => (acc, [])
  | acc, c :: cs =>
      if c.isDigit then parseDigitsAux (acc * 10 + (c.toNat - 48)) cs
      else (acc, c :: cs)

/-- Integer literal; a following `.`/`e`/`E` (a float, which the service
never writes) is rejected. -/
def parseIntLit : List Char → Option (Int × List Char)
  | [] => none
  | c :: cs =>
      if c = '-' then
        match cs with
        | d :: _ =>
            if d.isDigit then
              let (n, rest) := parseDigitsAux 0 cs
              match rest with
              | r :: _ =>
                  if r = '.' ∨ r = 'e' ∨ r = 'E' then none
                  else some (-(n : Int), rest)
              | [] => some (-(n : Int), rest)
            else none
        | [] => none
      else if c.isDigit then
        let (n, rest) := parseDigitsAux 0 (c :: cs)
        match rest with
        | r :: _ =>
            if r = '.' ∨ r = 'e' ∨ r = 'E' then none
            else some ((n : Int), rest)
        | [] => some ((n : Int), rest)
      else none

mutual

/-- One JSON value starting at the head of the input (whitespace already
skipped); fuel bounds the recursion and is in excess for any input the
top-level entry point supplies. -/
def parseV : Nat → List Char → Option (JVal × List Char)
  | 0, _ => none
  | _ + 1, [] => none
  | fuel + 1, c :: cs =>
      if c = 'n' then
        match cs with
        | 'u' :: 'l' :: 'l' :: rest => some (jnull, rest)
        | _ => none
      else if c = 't' then
        match cs with
        | 'r' :: 'u' :: 'e' :: rest => some (jbool true, rest)
        | _ => none
      else if c = 'f' then
        match cs with
        | 'a' :: 'l' :: 's' :: 'e' :: rest => some (jbool false, rest)
        | _ => none
      else if c = '"' then
        match parseStrAux [] cs with
        | some (s, rest) => some (jstr s, rest)
        | none => none
      else if c = '[' then
        match skipWs cs with
        | x :: rest =>
            if x = ']' then some (jarr [], rest)
            else parseArrItems fuel (x :: rest) []
        | [] => parseArrItems fuel [] []
      else if c = '\x7b' then
        match skipWs cs with
        | x :: rest =>
            if x = '\x7d' then some (jobj [], rest)
            else parseObjItems fuel (x :: rest) []
        | [] => parseObjItems fuel [] []
      else
        match parseIntLit (c :: cs) with
        | some (i, rest) => some (jint i, rest)
        | none => none

def parseArrItems : Nat → List Char → List JVal → Option (JVal × List Char)
  | 0, _, _ => none
  | fuel + 1, cs, acc =>
      match parseV fuel cs with
      | none => none
      | some (v, rest) =>
          match skipWs rest with
          | x :: rest' =>
              if x = ',' then parseArrItems fuel (skipWs rest') (v :: acc)
              else if x = ']' then some (jarr (v :: acc).reverse, rest')
              else none
          | [] => none

def parseObjItems : Nat → List Char → List (String × JVal) →
    Option (JVal × List Char)
  | 0, _, _ => none
  | fuel + 1, cs, acc =>
      match cs with
      | x :: cs1 =>
          if x = '"' then
            match parseStrAux [] cs1 with
            | none => none
            | some (k, rest) =>
                match skipWs rest with
                | y :: rest' =>
                    if y = ':' then
                      match parseV fuel (skipWs rest') with
                      | none => none
                      | some (v, rest'') =>
                          match skipWs rest'' with
                          | z :: rest3 =>
                              if z = ',' then
                                parseObjItems fuel (skipWs rest3) ((k, v) :: acc)
                              else if z = '\x7d' then
                                some (jobj ((k, v) :: acc).reverse, rest3)
                              else none
                          | [] => none
                    else none
                | [] => none
          else none
      | [] => none

end

/-- The continuation of one array-loop iteration after its element parsed
(everything in `parseArrItems` after `parseV` returned `some (v, rest)`). -/
def arrStep (fuel : Nat) (acc : List JVal) (v : JVal) (rest : List Char) :
    Option (JVal × List Char) :=
  match skipWs rest with
  | x :: rest' =>
      if x = ',' then parseArrItems fuel (skipWs rest') (v :: acc)
      else if x = ']' then some (jarr (v :: acc).reverse, rest')
      else none
  | [] => none

/-- The continuation of one object-loop iteration after its key parsed. -/
def objStep (fuel : Nat) (acc : List (String × JVal)) (k : String)
    (rest : List Char) : Option (JVal × List Char) :=
  match skipWs rest with
  | y :: rest' =>
      if y = ':' then
        match parseV fuel (skipWs rest') with
        | none => none
        | some (v, rest'') =>
            match skipWs rest'' with
            | z :: rest3 =>
                if z = ',' then parseObjItems fuel (skipWs rest3) ((k, v) :: acc)
                else if z = '\x7d' then some (jobj ((k, v) :: acc).reverse, rest3)
                else none
            | [] => none
      else none
  | [] => none

/-- Model of `json.loads`: parse one value, allow only trailing whitespace;
`none` models the `JSONDecodeError` raised on garbage or truncated input. -/
def jsonParse (s : String) : Option JVal :=
  match parseV (s.data.length + 1) (skipWs s.data) with
  | some (v, rest) => if skipWs rest = [] then some v else none
  | none => none

/-! ### Persistence (effective copies, lines 542-555)

The filesystem is a map from path to file contents; `none` models a
missing/unreadable file (`open` raising).  `load_processed_knowledge` wraps
everything in `try/except`, returns `False` on any exception and assigns
`self.processed_knowledge` only after `json.load` has succeeded. -/

def FileSystem := String → Option String

def save_processed_knowledge (fs : FileSystem) (filepath : String)
    (processed_knowledge : JVal) : FileSystem :=
  fun p => if p = filepath then some (dumpPretty processed_knowledge) else fs p

def load_processed_knowledge (fs : FileSystem) (filepath : String)
    (processed_knowledge : JVal) : Bool × JVal :=
  match fs filepath with
  | none => (false, processed_knowledge)
  | some content =>
      match jsonParse content with
      | none => (false, processed_knowledge)
      | some v => (true, v)

/-! ### `get_condensed_knowledge_for_prompt` (effective copy, lines 503-529) -/

def jGetD (v : JVal) (key : String) (d : JVal) : JVal :=
  match v with
  | jobj kvs => (kvs.lookup key).getD d
  | _ => d

def asArr : JVal → List JVal
  | jarr xs => xs
  | _ => []

def asObjItems : JVal → List (String × JVal)
  | jobj kvs => kvs
  | _ => []

mutual

/-- Python `str()` of a JSON-parsed value, as used by the f-string
interpolations; containers use `repr`-style rendering of their elements
(the service's digests only interpolate strings and ints). -/
def pyStr : JVal → String
  | jstr s => s
  | jint i =>
      if i < 0 then "-" ++ String.mk (natChars i.natAbs)
      else String.mk (natChars i.natAbs)
  | jbool true => "True"
  | jbool false => "False"
  | jnull => "None"
  | jarr xs => "[" ++ joinSep ", " (pyReprList xs) ++ "]"
  | jobj kvs => "\x7b" ++ joinSep ", " (pyReprItems kvs) ++ "\x7d"

def pyReprList : List JVal → List String
  | [] => []
  | x :: xs => pyReprItem x :: pyReprList xs

def pyReprItems : List (String × JVal) → List String
  | [] => []
  | kv :: kvs => ("'" ++ kv.1 ++ "': " ++ pyReprItem kv.2) :: pyReprItems kvs

def pyReprItem : JVal → String
  | jstr s => "'" ++ s ++ "'"
  | jint i =>
      if i < 0 then "-" ++ String.mk (natChars i.natAbs)
      else String.mk (natChars i.natAbs)
  | jbool true => "True"
  | jbool false => "False"
  | jnull => "None"
  | jarr xs => "[" ++ joinSep ", " (pyReprList xs) ++ "]"
  | jobj kvs => "\x7b" ++ joinSep ", " (pyReprItems kvs) ++ "\x7d"

end

/-- `not self.processed_knowledge`: the stored object is always a dict, so
falsy means the empty dict (the initial value from `__init__`). -/
def isFalsyDict : JVal → Bool
  | jobj [] => true
  | _ => false

def get_condensed_knowledge_for_prompt (processed_knowledge : JVal) : String :=
  if isFalsyDict processed_knowledge then ""
  else
    let aggregated := jGetD processed_knowledge "aggregated_knowledge" (jobj [])
    "\nWARREN BUFFETT INVESTMENT WISDOM (Processed from " ++
      pyStr (jGetD aggregated "total_processed_chunks" (jint 0)) ++
      " knowledge chunks)\n\nKEY INVESTMENT PRINCIPLES:\n" ++
    joinSep "\n"
      (((asArr (jGetD aggregated "investment_principles" (jarr []))).take 20).map
        fun p => "• " ++ pyStr p) ++
    "\n\nCRITICAL INSIGHTS:\n" ++
    joinSep "\n"
      (((asArr (jGetD aggregated "key_insights" (jarr []))).take 15).map
        fun p => "• " ++ pyStr p) ++
    "\n\nMEMORABLE QUOTES:\n" ++
    joinSep "\n"
      (((asArr (jGetD aggregated "memorable_quotes" (jarr []))).take 10).map
        fun q => "• \"" ++ pyStr q ++ "\"") ++
    "\n\nQUANTITATIVE METRICS:\n" ++
    joinSep "\n"
      ((asObjItems (jGetD aggregated "quantitative_metrics" (jobj []))).map
        fun kv => "• " ++ kv.1 ++ ": " ++ pyStr kv.2) ++
    "\n"

/-! ### Typed shape of the record `process_full_knowledge_base` returns and
`save_processed_knowledge` persists (lines 460-470). -/

structure ProcessingStats where
  total_tokens : Int
  tokens_per_chunk : Int
  overlap_tokens : Int

structure SavedRecord where
  total_chunks : Int
  successful_chunks : Int
  failed_chunks : Int
  aggregated : AggregatedKnowledge
  stats : ProcessingStats

def encodeStrList (ss : List String) : JVal := jarr (ss.map jstr)

def encodeMetrics (ms : List (String × String)) : JVal :=
  jobj (ms.map fun kv => (kv.1, jstr kv.2))

def encodeAggregated (a : AggregatedKnowledge) : JVal :=
  jobj [("investment_principles", encodeStrList a.investment_principles),
        ("key_insights", encodeStrList a.key_insights),
        ("memorable_quotes", encodeStrList a.memorable_quotes),
        ("quantitative_metrics", encodeMetrics a.quantitative_metrics),
        ("chunk_summaries", encodeStrList a.chunk_summaries),
        ("total_processed_chunks", jint a.total_processed_chunks)]

def encodeRecord (r : SavedRecord) : JVal :=
  jobj [("total_chunks", jint r.total_chunks),
        ("successful_chunks", jint r.successful_chunks),
        ("failed_chunks", jint r.failed_chunks),
        ("aggregated_knowledge", encodeAggregated r.aggregated),
        ("processing_stats",
          jobj [("total_tokens", jint r.stats.total_tokens),
                ("tokens_per_chunk", jint r.stats.tokens_per_chunk),
                ("overlap_tokens", jint r.stats.overlap_tokens)])]

/-! ### Concrete inputs used by witnesses and counterexamples -/

/-- Remote summarizer stubbed to return `{principles: ["Circle of
Competence"]}` for every chunk (the end-to-end scenario of the spec). -/
def stubRun : String → Except String AgentResult :=
  fun _ => .ok ⟨none, some ["Circle of Competence"], none, none, none⟩

def stubbedExtractions : List ProcessedChunk :=
  (List.range 4).map fun i => process_knowledge_chunk stubRun "chunk" i

/-- A summarization call that raises. -/
def runBoom : String → Except String AgentResult := fun _ => .error "boom"

/-- The dict built by the `except` branch of `process_knowledge_chunk`
(lines 403-409): only `chunk_index`, `error` and `processed`. -/
def failedChunkDict (chunkIndex : Nat) (msg : String) : ProcessedChunk :=
  { chunk_index := chunkIndex
    processed := false
    error := some msg
    summary := none
    principles := none
    strategies := none
    insights := none
    quotes := none
    metrics := none }

/-- Extraction carrying only metrics `{"a": "1"}`. -/
def cexMetrics1 : ProcessedChunk :=
  { chunk_index := 0, processed := true, error := none, summary := none
    principles := none, strategies := none, insights := none, quotes := none
    metrics := some [("a", "1")] }

/-- Extraction carrying only metrics `{"a": "2"}`. -/
def cexMetrics2 : ProcessedChunk :=
  { chunk_index := 1, processed := true, error := none, summary := none
    principles := none, strategies := none, insights := none, quotes := none
    metrics := some [("a", "2")] }

/-- Extraction carrying only a strategies list. -/
def cexStrategies : ProcessedChunk :=
  { chunk_index := 2, processed := true, error := none, summary := none
    principles := none, strategies := some ["Buy wonderful businesses"]
    insights := none, quotes := none, metrics := none }


/-! ### Proof-side auxiliaries for the persistence round-trip -/

/-- Decimal digit characters of `n`, most significant first (the
well-founded specification `natCharsAux` computes). -/
def digitsSpec (n : Nat) : List Char :=
  if n < 10 then [Nat.digitChar n]
  else digitsSpec (n / 10) ++ [Nat.digitChar (n % 10)]
decreasing_by exact Nat.div_lt_self (by omega) (by norm_num)

/-- The head of a rendered value's tail inside a container is always a
comma or a newline (or the tail is empty at top level). -/
def sepHead (t : List Char) : Prop :=
  ∀ c, t.head? = some c → (c = ',' ∨ c = '\n')

/-- `v` re-parses from its rendering at any position, given at least `need`
fuel. -/
def RtV (v : JVal) (need : Nat) : Prop :=
  ∀ f, need ≤ f → ∀ ind rest, sepHead rest →
    parseV f (renderV v ind rest) = some (v, rest)

/-- Number of newline characters in a string (a file whose contents has
a positive count occupies more than one line). -/
def countNl (s : String) : Nat := (s.data.filter fun c => c = '\n').length

def hasSub (needle : List Char) : List Char → Bool
  | [] => chPre needle []
  | c :: rest => chPre needle (c :: rest) || hasSub needle rest

/-- Substring test used to inspect rendered output. -/
def strHasSub (hay needle : String) : Bool := hasSub needle.data hay.data

/-- A small nonempty processed-knowledge record. -/
def sampleRecord : SavedRecord :=
  { total_chunks := 4, successful_chunks := 4, failed_chunks := 0
    aggregated :=
      { investment_principles := ["Circle of Competence"]
        key_insights := ["Be greedy when others are fearful"]
        memorable_quotes := ["Price is what you pay"]
        quantitative_metrics := [("pe", "15")]
        chunk_summaries := ["summary"]
        total_processed_chunks := 4 }
    stats := { total_tokens := 25000, tokens_per_chunk := 8000, overlap_tokens := 200 } }

/-- Processed-knowledge dict holding a digest with 21 principles, a
nonempty strategies list and 30 metric entries (shaped like the first-copy
pipeline's output, which is what a loaded legacy record can contain). -/
def cexCondensedInput : JVal :=
  jobj [("aggregated_knowledge",
    jobj [("investment_principles",
            jarr ((List.range 21).map fun i => jstr ("p" ++ String.mk (natChars i)))),
          ("investment_strategies", jarr [jstr "Buy wonderful businesses"]),
          ("key_insights", jarr [jstr "insight"]),
          ("memorable_quotes", jarr [jstr "quote"]),
          ("quantitative_metrics",
            jobj ((List.range 30).map fun i => ("m" ++ String.mk (natChars i), jstr "v"))),
          ("chunk_summaries", jarr []),
          ("total_processed_chunks", jint 4)])]


/-! ## Theorems -/

/-- Unfolding of one loop iteration. -/
theorem chunkLoop_succ (maxT overlap : Int) (tokens : List Nat) (fuel : Nat)
    (start : Int) (acc : List (List Nat)) :
    chunkLoop maxT overlap tokens (fuel + 1) start acc =
      if start < (tokens.length : Int) then
        if min (start + maxT) (tokens.length : Int) - overlap ≥ (tokens.length : Int) then
          some (acc ++ [pySlice tokens start (min (start + maxT) (tokens.length : Int))])
        else
          chunkLoop maxT overlap tokens fuel
            (min (start + maxT) (tokens.length : Int) - overlap)
            (acc ++ [pySlice tokens start (min (start + maxT) (tokens.length : Int))])
      else some acc := rfl

/-- With `max_tokens = overlap = 100` the loop's start index never grows
(`start' = min(start+100, len) - 100 ≤ start`), so from any non-positive
start on a nonempty token list the loop runs forever. -/
theorem chunkLoop_100_100_none (tokens : List Nat) (h0 : tokens ≠ []) :
    ∀ fuel (start : Int), start ≤ 0 →
      ∀ acc, chunkLoop 100 100 tokens fuel start acc = none := by
  have hlen : (0 : Int) < (tokens.length : Int) := by
    have := List.length_pos.mpr h0
    exact_mod_cast this
  intro fuel
  induction fuel with
  | zero => intro start _ acc; rfl
  | succ n ih =>
      intro start hstart acc
      rw [chunkLoop_succ]
      have hcond : start < (tokens.length : Int) := lt_of_le_of_lt hstart hlen
      rw [if_pos hcond]
      have hmin : min (start + 100) (tokens.length : Int) ≤ (tokens.length : Int) :=
        min_le_right _ _
      have hmin' : min (start + 100) (tokens.length : Int) ≤ start + 100 :=
        min_le_left _ _
      rw [if_neg (by omega)]
      exact ih _ (by omega) _

/-- C1: the spec requires `chunk_knowledge_base` to terminate, in
particular for `max_tokens = overlap_tokens = 100`; the code's loop sets
`start_idx = end_idx - overlap_tokens`, which for a positive overlap always
stays strictly below `len(tokens)`, so neither the `while` condition nor
the `break` guard can ever stop it: on every nonempty input the call
diverges (is `none` for every fuel) instead of producing a chunk list. -/
theorem chunk_knowledge_base_100_100_diverges :
    ∀ (tokens : List Nat), tokens ≠ [] →
      ∀ fuel, chunk_knowledge_base 100 100 tokens fuel = none := by
  intro tokens h0 fuel
  exact chunkLoop_100_100_none tokens h0 fuel 0 le_rfl []

/-- C1 witness: concrete divergent run on a one-token text. -/
theorem chunk_knowledge_base_100_100_diverges_witness :
    chunk_knowledge_base 100 100 [7] 1000 = none :=
  chunk_knowledge_base_100_100_diverges [7] (by decide) 1000

/-- On a 25,000-token input with `max_tokens = 8000`, `overlap = 200`, the
start index runs through 0, 7800, 15600, 23400 and then sticks at
24800 < 25000 forever. -/
theorem chunkLoop_25000_none (tokens : List Nat) (h : tokens.length = 25000) :
    ∀ fuel (start : Int),
      (start = 0 ∨ start = 7800 ∨ start = 15600 ∨ start = 23400 ∨ start = 24800) →
      ∀ acc, chunkLoop 8000 200 tokens fuel start acc = none := by
  have hl : (tokens.length : Int) = 25000 := by exact_mod_cast h
  intro fuel
  induction fuel with
  | zero => intro start _ acc; rfl
  | succ n ih =>
      intro start hstart acc
      rw [chunkLoop_succ, hl]
      rcases hstart with h' | h' | h' | h' | h' <;> subst h' <;> norm_num <;>
        exact ih _ (by norm_num) _

/-- C2: the end-to-end scenario.  First conjunct: on a 25,000-token corpus
with `max_tokens=8000`, `overlap=200` the chunker does not yield 4 chunks —
it never returns at all (the loop never terminates, for every fuel).
Remaining conjuncts: the aggregation half of the scenario does hold — with
the summarizer stubbed to return `principles = ["Circle of Competence"]`
for each of 4 chunks, the digest's principles are exactly that singleton
and the processed-chunk count is 4. -/
theorem chunk_25000_scenario :
    (∀ (tokens : List Nat), tokens.length = 25000 →
      ∀ fuel, chunk_knowledge_base 8000 200 tokens fuel = none) ∧
    (aggregate_processed_chunks stubbedExtractions).investment_principles =
      ["Circle of Competence"] ∧
    (aggregate_processed_chunks stubbedExtractions).total_processed_chunks = 4 := by
  refine ⟨fun tokens h fuel => ?_, by decide, by decide⟩
  exact chunkLoop_25000_none tokens h fuel 0 (Or.inl rfl) []

/-- C2 witness: a concrete 25,000-token input on which the chunker, run with
fuel 10 (and, by the theorem, any fuel), has not produced a result. -/
theorem chunk_25000_scenario_witness :
    chunk_knowledge_base 8000 200 (List.replicate 25000 0) 10 = none :=
  chunk_25000_scenario.1 (List.replicate 25000 0) (List.length_replicate 25000 0) 10

/-- A loop step leaves the state unchanged exactly as the claim describes:
this lemma relates one source-loop line visit to one `parseSpecStep`. -/
theorem parseLines_eq_foldl :
    ∀ (lines : List String) (cur : Option SectionTag) (acc : ParseResult),
      parseLines cur lines acc = (lines.foldl parseSpecStep (cur, acc)).2 := by
  intro lines
  induction lines with
  | nil => intro cur acc; rfl
  | cons l rest ih =>
      intro cur acc
      have hfold : (l :: rest).foldl parseSpecStep (cur, acc) =
          rest.foldl parseSpecStep (parseSpecStep (cur, acc) l) := rfl
      rw [hfold]
      by_cases hempty : pyStrip l = ""
      · have hstep : parseSpecStep (cur, acc) l = (cur, acc) := by
          simp only [parseSpecStep, hempty]
          have h1 : headerOf "" = none := by decide
          rw [h1]
          cases cur with
          | none => rfl
          | some tag =>
              have h2 : strStarts "" "- " = false := by decide
              simp [h2]
        rw [hstep]
        simp only [parseLines, hempty, if_pos]
        exact ih cur acc
      · rcases hh : headerOf (pyStrip l) with _ | tag
        · -- not a header line
          cases cur with
          | none =>
              have hstep : parseSpecStep (none, acc) l = (none, acc) := by
                simp only [parseSpecStep, hh]
              rw [hstep]
              simp only [parseLines, hempty, hh, if_neg]
              exact ih none acc
          | some tag' =>
              by_cases hb : strStarts (pyStrip l) "- "
              · by_cases hi : pyStrip (pyDrop (pyStrip l) 2) = ""
                · have hstep : parseSpecStep (some tag', acc) l = (some tag', acc) := by
                    simp only [parseSpecStep, hh]
                    simp [hb, hi]
                  rw [hstep]
                  simp only [parseLines, hempty, hh, hb, hi, if_neg]
                  simp only [if_pos, if_true]
                  exact ih (some tag') acc
                · have hstep : parseSpecStep (some tag', acc) l =
                      (some tag', acc.add tag' (pyStrip (pyDrop (pyStrip l) 2))) := by
                    simp only [parseSpecStep, hh]
                    simp [hb, hi]
                  rw [hstep]
                  simp only [parseLines, hempty, hh, hb, hi, if_neg]
                  simp only [if_pos, if_true]
                  exact ih (some tag') _
              · have hstep : parseSpecStep (some tag', acc) l = (some tag', acc) := by
                  simp only [parseSpecStep, hh]
                  simp [hb]
                rw [hstep]
                simp only [parseLines, hempty, hh, hb, if_neg]
                exact ih (some tag') acc
        · -- header line: cursor switches
          have hstep : parseSpecStep (cur, acc) l = (some tag, acc) := by
            simp only [parseSpecStep, hh]
          rw [hstep]
          simp only [parseLines, hempty, hh, if_neg]
          exact ih (some tag) acc

/-- C4 counterexample: the failure dict returned when the summarization
call raises does not contain the five list fields at all — they are absent
(`none`), not present-and-empty as the claim states. -/
theorem process_chunk_failure_lists_absent :
    ¬ ((process_knowledge_chunk runBoom "chunk" 0).principles = some [] ∧
       (process_knowledge_chunk runBoom "chunk" 0).strategies = some [] ∧
       (process_knowledge_chunk runBoom "chunk" 0).metrics = some [] ∧
       (process_knowledge_chunk runBoom "chunk" 0).insights = some [] ∧
       (process_knowledge_chunk runBoom "chunk" 0).quotes = some []) := by
  decide

/-- C4 (amended): when the summarization call raises, the whole outcome is
the failure dict `{chunk_index, error, processed: False}` — the chunk's
index, the failure flag and the error message, with every list field
absent rather than present-and-empty — and the exception never propagates
(the embedding is a total function into `ProcessedChunk`, the `except`
branch of lines 403-409). -/
theorem process_chunk_failure_shape (run : String → Except String AgentResult)
    (chunk : String) (chunkIndex : Nat) (msg : String)
    (h : run (processingPrompt chunkIndex chunk) = .error msg) :
    process_knowledge_chunk run chunk chunkIndex = failedChunkDict chunkIndex msg := by
  unfold process_knowledge_chunk
  rw [h]
  rfl

/-- C4 witness: the amended shape at a concrete raising run. -/
theorem process_chunk_failure_shape_witness :
    process_knowledge_chunk runBoom "chunk" 3 = failedChunkDict 3 "boom" :=
  process_chunk_failure_shape runBoom "chunk" 3 "boom" rfl

/-- C5: the effective aggregator (second copy, lines 472-501) is not the
claimed five-field set union.  At the concrete inputs below: metric items
are merged with `dict.update`, so a later chunk's value overwrites an
earlier one and item `("a", "1")` is lost (a set union would keep it); a
chunk whose extraction carries only strategies aggregates to the all-empty
digest — the digest has no strategies field at all.  The final conjunct is
the part of the claim the code does satisfy: zero extractions produce the
all-empty digest rather than an error. -/
theorem aggregate_not_five_field_union :
    ((aggregate_processed_chunks [cexMetrics1, cexMetrics2]).quantitative_metrics
        = [("a", "2")] ∧
      ("a", "1") ∈ cexMetrics1.metrics.getD [] ∧
      ("a", "1") ∉
        (aggregate_processed_chunks [cexMetrics1, cexMetrics2]).quantitative_metrics) ∧
    aggregate_processed_chunks [cexStrategies] =
      { investment_principles := [], key_insights := [], memorable_quotes := []
        quantitative_metrics := [], chunk_summaries := []
        total_processed_chunks := 1 } ∧
    aggregate_processed_chunks [] =
      { investment_principles := [], key_insights := [], memorable_quotes := []
        quantitative_metrics := [], chunk_summaries := []
        total_processed_chunks := 0 } := by
  decide

/-- C6: the effective `save_processed_knowledge` (second copy, lines
542-545) writes `json.dump(..., indent=2)` — pretty-printed, multi-line
JSON — so a nonempty record does not occupy a single line of the output
file.  (The shadowed first copy, lines 313-320, is the documented
single-line JSON-Lines writer the claim describes.)  First conjunct: the
file written for the sample record is exactly the indent-2 rendering;
second conjunct: that rendering contains newlines. -/
theorem save_pretty_not_single_line :
    (save_processed_knowledge (fun _ => none) "kb.json" (encodeRecord sampleRecord))
        "kb.json" = some (dumpPretty (encodeRecord sampleRecord)) ∧
    0 < countNl (dumpPretty (encodeRecord sampleRecord)) := by
  constructor
  · rfl
  · decide

/-- C8: `load_processed_knowledge` never propagates an exception: the
embedding is total, and both failure modes — missing/unreadable file
(`open` raising) and malformed or truncated contents (`json.load`
raising) — return `False` with the stored knowledge unchanged. -/
theorem load_fails_soft (fs : FileSystem) (path : String) (pk : JVal) :
    (fs path = none → load_processed_knowledge fs path pk = (false, pk)) ∧
    (∀ content, fs path = some content → jsonParse content = none →
      load_processed_knowledge fs path pk = (false, pk)) := by
  constructor
  · intro h
    unfold load_processed_knowledge
    rw [h]
  · intro c h hp
    unfold load_processed_knowledge
    rw [h]
    show (match jsonParse c with
          | none => (false, pk)
          | some v => (true, v)) = (false, pk)
    rw [hp]

/-- C8 witness: a missing file, a garbage file and a truncated record all
load as `(false, unchanged)`. -/
theorem load_fails_soft_witness :
    load_processed_knowledge (fun _ => none) "kb.json" (jobj []) = (false, jobj []) ∧
    load_processed_knowledge (fun _ => some "not json") "kb.json" (jobj []) =
      (false, jobj []) ∧
    load_processed_knowledge (fun _ => some "\x7b\"aggregated_knowledge\": ")
      "kb.json" (jobj []) = (false, jobj []) :=
  ⟨(load_fails_soft (fun _ => none) "kb.json" (jobj [])).1 rfl,
   (load_fails_soft (fun _ => some "not json") "kb.json" (jobj [])).2
     "not json" rfl rfl,
   (load_fails_soft (fun _ => some "\x7b\"aggregated_knowledge\": ") "kb.json"
     (jobj [])).2 "\x7b\"aggregated_knowledge\": " rfl rfl⟩

/-- C10: loading is atomic with respect to the stored state: whenever the
load reports failure the stored `processed_knowledge` is exactly what it
was before the call (the `self.processed_knowledge = json.load(f)`
assignment runs only after `json.load` returned), and a reported success
returns precisely the parse of the file's contents. -/
theorem load_atomic (fs : FileSystem) (path : String) (pk : JVal) :
    ((load_processed_knowledge fs path pk).1 = false →
      (load_processed_knowledge fs path pk).2 = pk) ∧
    ((load_processed_knowledge fs path pk).1 = true →
      ∃ content, fs path = some content ∧
        jsonParse content = some (load_processed_knowledge fs path pk).2) := by
  rcases h : fs path with _ | content
  · simp [load_processed_knowledge, h]
  · rcases hp : jsonParse content with _ | v
    · simp [load_processed_knowledge, h, hp]
    · simp [load_processed_knowledge, h, hp]

/-- C10 witness: a failing load (garbage contents) leaves the stored value
`jstr "old"` in place; a succeeding load (contents `"{}"`) replaces it with
the parsed value. -/
theorem load_atomic_witness :
    (load_processed_knowledge (fun _ => some "not json") "kb.json" (jstr "old")).2 =
      jstr "old" ∧
    ∃ content, (fun _ => some "\x7b\x7d" : FileSystem) "kb.json" = some content ∧
      jsonParse content =
        some (load_processed_knowledge (fun _ => some "\x7b\x7d") "kb.json"
          (jstr "old")).2 :=
  ⟨(load_atomic (fun _ => some "not json") "kb.json" (jstr "old")).1 rfl,
   (load_atomic (fun _ => some "\x7b\x7d") "kb.json" (jstr "old")).2 rfl⟩

set_option maxRecDepth 40000 in
/-- C9: the effective `get_condensed_knowledge_for_prompt` (second copy,
lines 503-529) does not render five capped sections.  On the concrete
digest below: a nonempty strategies list is never rendered (there is no
strategies section), every one of the 30 metric entries is rendered (the
metrics section has no cap), while principles are capped at 20 (`p19`
appears, `p20` does not).  With metrics uncapped the output's total length
is not bounded for bounded item lengths, contrary to the claim. -/
theorem condensed_sections_divergence :
    strHasSub (get_condensed_knowledge_for_prompt cexCondensedInput)
      "Buy wonderful businesses" = false ∧
    strHasSub (get_condensed_knowledge_for_prompt cexCondensedInput) "m29" = true ∧
    strHasSub (get_condensed_knowledge_for_prompt cexCondensedInput) "p19" = true ∧
    strHasSub (get_condensed_knowledge_for_prompt cexCondensedInput) "p20" = false := by
  decide

/-- C3: `_parse_structured_response` is exactly the claim's cursor scan: it
walks the lines with a current-section cursor that switches on the
recognized (case-insensitively matched) section-header lines, collects only
bullet (`"- "`) lines into the active section, and ignores everything else;
lines before the first recognized header are discarded because the cursor
starts inactive, headers may come in any order, sections may stay empty,
and trailing non-bullet content is ignored. -/
theorem parse_structured_response_spec :
    ∀ response : String,
      parse_structured_response response = parseSpecScan response := by
  intro response
  exact parseLines_eq_foldl (splitNl response) none ParseResult.empty

/-! ### Persistence round-trip: string literals -/

theorem char_ofNat_toNat (c : Char) : Char.ofNat c.toNat = c := by
  rcases c with ⟨⟨⟨n, hn⟩⟩, hvalid⟩
  have hv : Nat.isValidChar n := hvalid
  show Char.ofNat n = _
  unfold Char.ofNat
  rw [dif_pos hv]
  rfl

theorem hexVal_hexDigit : ∀ n, n < 16 → hexVal (hexDigit n) = some n := by
  decide

theorem parseStrAux_quote (acc rest : List Char) :
    parseStrAux acc ('"' :: rest) = some (String.mk acc.reverse, rest) := by
  rw [parseStrAux.eq_def]
  simp

theorem parseStrAux_esc (acc T : List Char) (e c' : Char)
    (he : e ≠ 'u') (hu : unescape e = some c') :
    parseStrAux acc ('\\' :: e :: T) = parseStrAux (c' :: acc) T := by
  rw [parseStrAux.eq_def]
  simp [he, hu]

theorem parseStrAux_u (acc T : List Char) (x y : Char) (a b : Nat)
    (hx : hexVal x = some a) (hy : hexVal y = some b)
    (hv : Nat.isValidChar (a * 16 + b)) :
    parseStrAux acc ('\\' :: 'u' :: '0' :: '0' :: x :: y :: T) =
      parseStrAux (Char.ofNat (a * 16 + b) :: acc) T := by
  rw [parseStrAux.eq_def]
  have h0 : hexVal '0' = some 0 := by decide
  simp only [h0, hx, hy]
  have harith : ((0 * 16 + 0) * 16 + a) * 16 + b = a * 16 + b := by omega
  norm_num
  rw [if_pos hv, if_neg (show ¬('\\' = '"') by decide)]

theorem parseStrAux_raw (acc T : List Char) (c : Char)
    (h1 : c ≠ '"') (h2 : c ≠ '\\') (h3 : ¬ c.toNat < 32) :
    parseStrAux acc (c :: T) = parseStrAux (c :: acc) T := by
  rw [parseStrAux.eq_def]
  simp [h1, h2, h3]

theorem parseStrAux_escStr :
    ∀ (cs acc rest : List Char),
      parseStrAux acc (escStr cs ('"' :: rest)) =
        some (String.mk (acc.reverse ++ cs), rest) := by
  intro cs
  induction cs with
  | nil =>
      intro acc rest
      show parseStrAux acc ('"' :: rest) = _
      rw [parseStrAux_quote]
      simp
  | cons c cs ih =>
      intro acc rest
      show parseStrAux acc (escChar c (escStr cs ('"' :: rest))) = _
      unfold escChar
      by_cases h1 : c = '"'
      · subst h1
        rw [if_pos rfl, parseStrAux_esc acc _ '"' '"' (by decide) (by decide), ih]
        simp
      · rw [if_neg h1]
        by_cases h2 : c = '\\'
        · subst h2
          rw [if_pos rfl, parseStrAux_esc acc _ '\\' '\\' (by decide) (by decide), ih]
          simp
        · rw [if_neg h2]
          by_cases h3 : c = '\n'
          · subst h3
            rw [if_pos rfl, parseStrAux_esc acc _ 'n' '\n' (by decide) (by decide), ih]
            simp
          · rw [if_neg h3]
            by_cases h4 : c = '\t'
            · subst h4
              rw [if_pos rfl, parseStrAux_esc acc _ 't' '\t' (by decide) (by decide), ih]
              simp
            · rw [if_neg h4]
              by_cases h5 : c = '\r'
              · subst h5
                rw [if_pos rfl, parseStrAux_esc acc _ 'r' '\r' (by decide) (by decide), ih]
                simp
              · rw [if_neg h5]
                by_cases h6 : c = Char.ofNat 8
                · subst h6
                  rw [if_pos rfl,
                    parseStrAux_esc acc _ 'b' (Char.ofNat 8) (by decide) (by decide), ih]
                  simp
                · rw [if_neg h6]
                  by_cases h7 : c = Char.ofNat 12
                  · subst h7
                    rw [if_pos rfl,
                      parseStrAux_esc acc _ 'f' (Char.ofNat 12) (by decide) (by decide), ih]
                    simp
                  · rw [if_neg h7]
                    by_cases h8 : c.toNat < 32
                    · rw [if_pos h8]
                      have e3 : hexVal (hexDigit (c.toNat / 16)) = some (c.toNat / 16) :=
                        hexVal_hexDigit _ (by omega)
                      have e4 : hexVal (hexDigit (c.toNat % 16)) = some (c.toNat % 16) :=
                        hexVal_hexDigit _ (by omega)
                      have hcode : c.toNat / 16 * 16 + c.toNat % 16 = c.toNat := by
                        omega
                      have hv : Nat.isValidChar (c.toNat / 16 * 16 + c.toNat % 16) := by
                        rw [hcode]; exact c.valid
                      rw [parseStrAux_u _ _ _ _ _ _ e3 e4 hv, hcode, char_ofNat_toNat, ih]
                      simp
                    · rw [if_neg h8, parseStrAux_raw _ _ _ h1 h2 h8, ih]
                      simp

/-! ### Persistence round-trip: integer literals -/

theorem natCharsAux_eq :
    ∀ (fuel n : Nat) (acc : List Char), n < fuel →
      natCharsAux fuel n acc = digitsSpec n ++ acc := by
  intro fuel
  induction fuel with
  | zero => intro n acc h; omega
  | succ f ih =>
      intro n acc h
      rw [natCharsAux, digitsSpec]
      by_cases h10 : n < 10
      · rw [if_pos h10, if_pos h10]
        rfl
      · rw [if_neg h10, if_neg h10, ih _ _ (by omega)]
        simp

theorem natChars_eq (n : Nat) : natChars n = digitsSpec n := by
  rw [natChars, natCharsAux_eq (n + 1) n [] (by omega)]
  simp

theorem digitChar_isDigit : ∀ k, k < 10 → (Nat.digitChar k).isDigit = true := by
  decide

theorem digitsSpec_digits :
    ∀ n, ∀ c ∈ digitsSpec n, c.isDigit = true := by
  intro n
  induction n using Nat.strong_induction_on with
  | _ n ih =>
      intro c hc
      rw [digitsSpec] at hc
      by_cases h10 : n < 10
      · rw [if_pos h10] at hc
        simp at hc
        subst hc
        exact digitChar_isDigit n h10
      · rw [if_neg h10] at hc
        rcases List.mem_append.mp hc with h | h
        · exact ih (n / 10) (Nat.div_lt_self (by omega) (by norm_num)) c h
        · simp at h
          subst h
          exact digitChar_isDigit _ (Nat.mod_lt _ (by norm_num))

theorem digitsSpec_head :
    ∀ n, ∃ k, k < 10 ∧ ∃ ds, digitsSpec n = Nat.digitChar k :: ds := by
  intro n
  induction n using Nat.strong_induction_on with
  | _ n ih =>
      rw [digitsSpec]
      by_cases h10 : n < 10
      · rw [if_pos h10]
        exact ⟨n, h10, [], rfl⟩
      · rw [if_neg h10]
        obtain ⟨k, hk, ds, hds⟩ := ih (n / 10) (Nat.div_lt_self (by omega) (by norm_num))
        exact ⟨k, hk, ds ++ [Nat.digitChar (n % 10)], by rw [hds]; rfl⟩

theorem parseDigitsAux_append :
    ∀ (ds rest : List Char) (acc : Nat),
      (∀ c ∈ ds, c.isDigit = true) →
      (∀ c, rest.head? = some c → c.isDigit = false) →
      parseDigitsAux acc (ds ++ rest) =
        (ds.foldl (fun a c => a * 10 + (c.toNat - 48)) acc, rest) := by
  intro ds
  induction ds with
  | nil =>
      intro rest acc _ hstop
      cases rest with
      | nil => rfl
      | cons r rs =>
          rw [List.nil_append, parseDigitsAux.eq_def]
          simp [hstop r rfl]
  | cons d ds ih =>
      intro rest acc hds hstop
      have hd : d.isDigit = true := hds d (List.mem_cons_self d ds)
      rw [List.cons_append, parseDigitsAux.eq_def]
      simp only [hd, if_true]
      rw [ih rest _ (fun c hc => hds c (List.mem_cons_of_mem d hc)) hstop]
      rfl

theorem digitChar_toNat : ∀ k, k < 10 → (Nat.digitChar k).toNat - 48 = k := by
  decide

theorem foldl_digitsSpec :
    ∀ (n acc : Nat),
      (digitsSpec n).foldl (fun a c => a * 10 + (c.toNat - 48)) acc =
        acc * 10 ^ (digitsSpec n).length + n := by
  intro n
  induction n using Nat.strong_induction_on with
  | _ n ih =>
      intro acc
      rw [digitsSpec]
      by_cases h10 : n < 10
      · rw [if_pos h10]
        simp [digitChar_toNat n h10]
      · rw [if_neg h10]
        rw [List.foldl_append]
        rw [ih (n / 10) (Nat.div_lt_self (by omega) (by norm_num))]
        simp only [List.foldl_cons, List.foldl_nil, List.length_append,
          List.length_cons, List.length_nil]
        rw [digitChar_toNat _ (Nat.mod_lt _ (by norm_num))]
        ring_nf
        omega

theorem digitChar_ne_minus : ∀ k, k < 10 → Nat.digitChar k ≠ '-' := by
  decide

theorem sepHead_stop (rest : List Char) (h : sepHead rest) :
    ∀ c, rest.head? = some c →
      c.isDigit = false ∧ ¬(c = '.' ∨ c = 'e' ∨ c = 'E') := by
  intro c hc
  rcases h c hc with h' | h' <;> subst h' <;>
    exact ⟨by decide, by decide⟩

theorem parseIntLit_intChars (i : Int) (rest : List Char) (h : sepHead rest) :
    parseIntLit (intChars i rest) = some (i, rest) := by
  have hdigits : ∀ c ∈ digitsSpec i.natAbs, c.isDigit = true := digitsSpec_digits _
  have hstop' : ∀ c, rest.head? = some c → c.isDigit = false :=
    fun c hc => (sepHead_stop rest h c hc).1
  have hparse : parseDigitsAux 0 (digitsSpec i.natAbs ++ rest) = (i.natAbs, rest) := by
    rw [parseDigitsAux_append _ _ _ hdigits hstop', foldl_digitsSpec]
    simp
  obtain ⟨k, hk, ds, hds⟩ := digitsSpec_head i.natAbs
  have hparse' : parseDigitsAux 0 (Nat.digitChar k :: (ds ++ rest)) = (i.natAbs, rest) := by
    rw [← List.cons_append, ← hds]
    exact hparse
  unfold intChars
  by_cases hi : i < 0
  · have hval : -((i.natAbs : Nat) : Int) = i := by omega
    have hval2 : -|i| = i := by rw [Int.abs_eq_natAbs]; omega
    rw [if_pos hi, natChars_eq, hds, List.cons_append, parseIntLit.eq_def]
    cases hr : rest with
    | nil =>
        subst hr
        have hp : parseDigitsAux 0 (Nat.digitChar k :: ds) = (i.natAbs, []) := by
          simpa using hparse'
        simp [digitChar_isDigit k hk, hp, hval, hval2]
    | cons r rs =>
        have hrfacts := (sepHead_stop rest h r (by rw [hr]; rfl)).2
        subst hr
        simp [digitChar_isDigit k hk, hparse', hrfacts, hval, hval2]
  · have hval : ((i.natAbs : Nat) : Int) = i := by omega
    have hval2 : |i| = i := by rw [Int.abs_eq_natAbs]; omega
    rw [if_neg hi, natChars_eq, hds, List.cons_append, parseIntLit.eq_def]
    cases hr : rest with
    | nil =>
        subst hr
        have hp : parseDigitsAux 0 (Nat.digitChar k :: ds) = (i.natAbs, []) := by
          simpa using hparse'
        simp [digitChar_isDigit k hk, digitChar_ne_minus k hk, hp, hval, hval2]
    | cons r rs =>
        have hrfacts := (sepHead_stop rest h r (by rw [hr]; rfl)).2
        subst hr
        simp [digitChar_isDigit k hk, digitChar_ne_minus k hk, hparse', hrfacts,
          hval, hval2]

/-! ### Persistence round-trip: parser fuel is monotone -/

theorem parseArrItems_succ (f : Nat) (cs : List Char) (acc : List JVal) :
    parseArrItems (f + 1) cs acc =
      match parseV f cs with
      | none => none
      | some (v, rest) => arrStep f acc v rest := by
  cases hv : parseV f cs with
  | none => simp [parseArrItems, hv]
  | some res =>
      rcases res with ⟨v, rest⟩
      simp [parseArrItems, arrStep, hv]

theorem parseObjItems_succ_nil (f : Nat) (acc : List (String × JVal)) :
    parseObjItems (f + 1) [] acc = none := by
  simp [parseObjItems]

theorem parseObjItems_succ_cons (f : Nat) (x : Char) (cs1 : List Char)
    (acc : List (String × JVal)) :
    parseObjItems (f + 1) (x :: cs1) acc =
      if x = '"' then
        match parseStrAux [] cs1 with
        | none => none
        | some (k, rest) => objStep f acc k rest
      else none := by
  by_cases hx : x = '"'
  · cases hk : parseStrAux [] cs1 with
    | none => simp [parseObjItems, hx, hk]
    | some res =>
        rcases res with ⟨k, rest⟩
        simp [parseObjItems, objStep, hx, hk]
  · simp [parseObjItems, hx]

theorem parse_mono_step :
    ∀ f, (∀ cs r, parseV f cs = some r → parseV (f + 1) cs = some r) ∧
      (∀ cs acc r, parseArrItems f cs acc = some r →
        parseArrItems (f + 1) cs acc = some r) ∧
      (∀ cs acc r, parseObjItems f cs acc = some r →
        parseObjItems (f + 1) cs acc = some r) := by
  intro f
  induction f with
  | zero =>
      refine ⟨?_, ?_, ?_⟩
      · intro cs r h
        simp [parseV] at h
      · intro cs acc r h
        simp [parseArrItems] at h
      · intro cs acc r h
        simp [parseObjItems] at h
  | succ g ih =>
      obtain ⟨ihV, ihA, ihO⟩ := ih
      refine ⟨?_, ?_, ?_⟩
      · intro cs r h
        cases cs with
        | nil => simp [parseV] at h
        | cons c cs =>
            simp only [parseV] at h ⊢
            repeat' split at h
            all_goals try simp_all
            all_goals first
              | exact ihA _ _ _ h
              | exact ihO _ _ _ h
              | exact ihA _ _ _ _ h
              | exact ihO _ _ _ _ h
      · intro cs acc r h
        rw [parseArrItems_succ] at h ⊢
        cases hv : parseV g cs with
        | none => rw [hv] at h; simp at h
        | some res =>
            rcases res with ⟨v, rest⟩
            rw [hv] at h
            rw [ihV _ _ hv]
            show arrStep (g + 1) acc v rest = some r
            have h' : arrStep g acc v rest = some r := h
            rw [arrStep] at h' ⊢
            cases hs : skipWs rest with
            | nil => rw [hs] at h'; simp at h'
            | cons x rest' =>
                rw [hs] at h'
                have h'' : (if x = ',' then parseArrItems g (skipWs rest') (v :: acc)
                    else if x = ']' then some (jarr (v :: acc).reverse, rest')
                    else none) = some r := h'
                show (if x = ',' then parseArrItems (g + 1) (skipWs rest') (v :: acc)
                    else if x = ']' then some (jarr (v :: acc).reverse, rest')
                    else none) = some r
                by_cases hx : x = ','
                · rw [if_pos hx] at h'' ⊢
                  exact ihA _ _ _ h''
                · rw [if_neg hx] at h'' ⊢
                  by_cases hx2 : x = ']'
                  · rw [if_pos hx2] at h'' ⊢
                    exact h''
                  · rw [if_neg hx2] at h''
                    simp at h''
      · intro cs acc r h
        cases cs with
        | nil => rw [parseObjItems_succ_nil] at h; simp at h
        | cons x cs1 =>
            rw [parseObjItems_succ_cons] at h ⊢
            by_cases hx : x = '"'
            · rw [if_pos hx] at h ⊢
              cases hk : parseStrAux [] cs1 with
              | none => rw [hk] at h; simp at h
              | some res =>
                  rcases res with ⟨k, rest⟩
                  rw [hk] at h
                  show objStep (g + 1) acc k rest = some r
                  have h' : objStep g acc k rest = some r := h
                  rw [objStep] at h' ⊢
                  cases hs : skipWs rest with
                  | nil => rw [hs] at h'; simp at h'
                  | cons y rest' =>
                      rw [hs] at h'
                      have h2 : (if y = ':' then
                          (match parseV g (skipWs rest') with
                          | none => none
                          | some (v, rest'') =>
                              match skipWs rest'' with
                              | z :: rest3 =>
                                  if z = ',' then
                                    parseObjItems g (skipWs rest3) ((k, v) :: acc)
                                  else if z = '\x7d' then
                                    some (jobj ((k, v) :: acc).reverse, rest3)
                                  else none
                              | [] => none)
                          else none) = some r := h'
                      by_cases hy : y = ':'
                      · rw [if_pos hy] at h2
                        show (if y = ':' then
                          (match parseV (g + 1) (skipWs rest') with
                          | none => none
                          | some (v, rest'') =>
                              match skipWs rest'' with
                              | z :: rest3 =>
                                  if z = ',' then
                                    parseObjItems (g + 1) (skipWs rest3) ((k, v) :: acc)
                                  else if z = '\x7d' then
                                    some (jobj ((k, v) :: acc).reverse, rest3)
                                  else none
                              | [] => none)
                          else none) = some r
                        rw [if_pos hy]
                        cases hv : parseV g (skipWs rest') with
                        | none => rw [hv] at h2; simp at h2
                        | some res2 =>
                            rcases res2 with ⟨v, rest2⟩
                            rw [hv] at h2
                            rw [ihV _ _ hv]
                            have h3 : (match skipWs rest2 with
                                | z :: rest3 =>
                                    if z = ',' then
                                      parseObjItems g (skipWs rest3) ((k, v) :: acc)
                                    else if z = '\x7d' then
                                      some (jobj ((k, v) :: acc).reverse, rest3)
                                    else none
                                | [] => none) = some r := h2
                            show (match skipWs rest2 with
                                | z :: rest3 =>
                                    if z = ',' then
                                      parseObjItems (g + 1) (skipWs rest3) ((k, v) :: acc)
                                    else if z = '\x7d' then
                                      some (jobj ((k, v) :: acc).reverse, rest3)
                                    else none
                                | [] => none) = some r
                            cases hs2 : skipWs rest2 with
                            | nil => rw [hs2] at h3; simp at h3
                            | cons z rest3 =>
                                rw [hs2] at h3
                                have h4 : (if z = ',' then
                                      parseObjItems g (skipWs rest3) ((k, v) :: acc)
                                    else if z = '\x7d' then
                                      some (jobj ((k, v) :: acc).reverse, rest3)
                                    else none) = some r := h3
                                show (if z = ',' then
                                      parseObjItems (g + 1) (skipWs rest3) ((k, v) :: acc)
                                    else if z = '\x7d' then
                                      some (jobj ((k, v) :: acc).reverse, rest3)
                                    else none) = some r
                                by_cases hz : z = ','
                                · rw [if_pos hz] at h4 ⊢
                                  exact ihO _ _ _ h4
                                · rw [if_neg hz] at h4 ⊢
                                  by_cases hz2 : z = '\x7d'
                                  · rw [if_pos hz2] at h4 ⊢
                                    exact h4
                                  · rw [if_neg hz2] at h4
                                    simp at h4
                      · rw [if_neg hy] at h2
                        simp at h2
            · rw [if_neg hx] at h
              simp at h

theorem parseV_add (d f : Nat) (cs : List Char) (r : JVal × List Char)
    (h : parseV f cs = some r) : parseV (f + d) cs = some r := by
  induction d with
  | zero => exact h
  | succ n ih =>
      have h2 := (parse_mono_step (f + n)).1 _ _ ih
      have heq : f + (n + 1) = f + n + 1 := by omega
      rw [heq]
      exact h2

theorem parseArrItems_add (d f : Nat) (cs : List Char) (acc : List JVal)
    (r : JVal × List Char) (h : parseArrItems f cs acc = some r) :
    parseArrItems (f + d) cs acc = some r := by
  induction d with
  | zero => exact h
  | succ n ih =>
      have h2 := (parse_mono_step (f + n)).2.1 _ _ _ ih
      have heq : f + (n + 1) = f + n + 1 := by omega
      rw [heq]
      exact h2

theorem parseObjItems_add (d f : Nat) (cs : List Char) (acc : List (String × JVal))
    (r : JVal × List Char) (h : parseObjItems f cs acc = some r) :
    parseObjItems (f + d) cs acc = some r := by
  induction d with
  | zero => exact h
  | succ n ih =>
      have h2 := (parse_mono_step (f + n)).2.2 _ _ _ ih
      have heq : f + (n + 1) = f + n + 1 := by omega
      rw [heq]
      exact h2

theorem parseV_le {f f' : Nat} (hle : f ≤ f') {cs : List Char}
    {r : JVal × List Char} (h : parseV f cs = some r) : parseV f' cs = some r := by
  obtain ⟨d, rfl⟩ := Nat.exists_eq_add_of_le hle
  exact parseV_add d f cs r h

theorem parseArrItems_le {f f' : Nat} (hle : f ≤ f') {cs : List Char}
    {acc : List JVal} {r : JVal × List Char} (h : parseArrItems f cs acc = some r) :
    parseArrItems f' cs acc = some r := by
  obtain ⟨d, rfl⟩ := Nat.exists_eq_add_of_le hle
  exact parseArrItems_add d f cs acc r h

theorem parseObjItems_le {f f' : Nat} (hle : f ≤ f') {cs : List Char}
    {acc : List (String × JVal)} {r : JVal × List Char}
    (h : parseObjItems f cs acc = some r) : parseObjItems f' cs acc = some r := by
  obtain ⟨d, rfl⟩ := Nat.exists_eq_add_of_le hle
  exact parseObjItems_add d f cs acc r h

/-! ### Persistence round-trip: whitespace and head-character facts -/

theorem skipWs_replicate (n : Nat) (t : List Char) :
    skipWs (List.replicate n ' ' ++ t) = skipWs t := by
  induction n with
  | zero => rfl
  | succ m ih =>
      rw [List.replicate_succ, List.cons_append]
      rw [skipWs.eq_def]
      simp [ih]

theorem skipWs_spacesPrep (n : Nat) (t : List Char) :
    skipWs (spacesPrep n t) = skipWs t := skipWs_replicate n t

theorem skipWs_cons_not_ws (c : Char) (t : List Char)
    (h : ¬(c = ' ' ∨ c = '\n' ∨ c = '\t' ∨ c = '\r')) :
    skipWs (c :: t) = c :: t := by
  rw [skipWs.eq_def]
  simp [h]

theorem skipWs_nl (t : List Char) : skipWs ('\n' :: t) = skipWs t := by
  rw [skipWs.eq_def]
  simp

theorem renderV_jnull (ind : Nat) (t : List Char) :
    renderV jnull ind t = 'n' :: 'u' :: 'l' :: 'l' :: t := by simp [renderV]

theorem renderV_jstr (s : String) (ind : Nat) (t : List Char) :
    renderV (jstr s) ind t = strChars s t := by simp [renderV]

theorem renderV_jint (i : Int) (ind : Nat) (t : List Char) :
    renderV (jint i) ind t = intChars i t := by simp [renderV]

theorem renderV_jarr_nil (ind : Nat) (t : List Char) :
    renderV (jarr []) ind t = '[' :: ']' :: t := by simp [renderV]

theorem renderV_jarr_cons (x : JVal) (xs : List JVal) (ind : Nat) (t : List Char) :
    renderV (jarr (x :: xs)) ind t =
      '[' :: '\n' :: spacesPrep (ind + 2)
        (renderV x (ind + 2) (renderArrRest xs ind t)) := by simp [renderV]

theorem renderV_jobj_nil (ind : Nat) (t : List Char) :
    renderV (jobj []) ind t = '\x7b' :: '\x7d' :: t := by simp [renderV]

theorem renderV_jobj_cons (kv : String × JVal) (kvs : List (String × JVal))
    (ind : Nat) (t : List Char) :
    renderV (jobj (kv :: kvs)) ind t =
      '\x7b' :: '\n' :: spacesPrep (ind + 2)
        (strChars kv.1 (':' :: ' ' ::
          renderV kv.2 (ind + 2) (renderObjRest kvs ind t))) := by simp [renderV]

theorem renderArrRest_nil (ind : Nat) (t : List Char) :
    renderArrRest [] ind t = '\n' :: spacesPrep ind (']' :: t) := by
  simp [renderArrRest]

theorem renderArrRest_cons (y : JVal) (ys : List JVal) (ind : Nat) (t : List Char) :
    renderArrRest (y :: ys) ind t =
      ',' :: '\n' :: spacesPrep (ind + 2)
        (renderV y (ind + 2) (renderArrRest ys ind t)) := by simp [renderArrRest]

theorem renderObjRest_nil (ind : Nat) (t : List Char) :
    renderObjRest [] ind t = '\n' :: spacesPrep ind ('\x7d' :: t) := by
  simp [renderObjRest]

theorem renderObjRest_cons (kv : String × JVal) (kvs : List (String × JVal))
    (ind : Nat) (t : List Char) :
    renderObjRest (kv :: kvs) ind t =
      ',' :: '\n' :: spacesPrep (ind + 2)
        (strChars kv.1 (':' :: ' ' ::
          renderV kv.2 (ind + 2) (renderObjRest kvs ind t))) := by
  simp [renderObjRest]

theorem digitChar_not_ws : ∀ k, k < 10 →
    ¬(Nat.digitChar k = ' ' ∨ Nat.digitChar k = '\n' ∨
      Nat.digitChar k = '\t' ∨ Nat.digitChar k = '\r') := by
  decide

/-- The first character of any rendered value is never whitespace. -/
theorem renderV_head_not_ws (v : JVal) (ind : Nat) (t : List Char) :
    ∃ c t', renderV v ind t = c :: t' ∧
      ¬(c = ' ' ∨ c = '\n' ∨ c = '\t' ∨ c = '\r') := by
  cases v with
  | jnull => exact ⟨'n', _, renderV_jnull ind t, by decide⟩
  | jbool b =>
      cases b with
      | true => exact ⟨'t', 'r' :: 'u' :: 'e' :: t, by simp [renderV], by decide⟩
      | false => exact ⟨'f', 'a' :: 'l' :: 's' :: 'e' :: t, by simp [renderV], by decide⟩
  | jint i =>
      rw [renderV_jint]
      unfold intChars
      by_cases hi : i < 0
      · rw [if_pos hi]
        exact ⟨'-', _, rfl, by decide⟩
      · rw [if_neg hi, natChars_eq]
        obtain ⟨k, hk, ds, hds⟩ := digitsSpec_head i.natAbs
        rw [hds]
        exact ⟨Nat.digitChar k, _, rfl, digitChar_not_ws k hk⟩
  | jstr s => exact ⟨'"', _, renderV_jstr s ind t, by decide⟩
  | jarr xs =>
      cases xs with
      | nil => exact ⟨'[', _, renderV_jarr_nil ind t, by decide⟩
      | cons x xs => exact ⟨'[', _, renderV_jarr_cons x xs ind t, by decide⟩
  | jobj kvs =>
      cases kvs with
      | nil => exact ⟨'\x7b', _, renderV_jobj_nil ind t, by decide⟩
      | cons kv kvs => exact ⟨'\x7b', _, renderV_jobj_cons kv kvs ind t, by decide⟩

theorem skipWs_renderV (v : JVal) (ind : Nat) (t : List Char) :
    skipWs (renderV v ind t) = renderV v ind t := by
  obtain ⟨c, t', hc, hw⟩ := renderV_head_not_ws v ind t
  rw [hc, skipWs_cons_not_ws c t' hw]

/-! ### Persistence round-trip: values re-parse from their rendering -/

theorem parseV_jstr {f : Nat} (hf : 1 ≤ f) (s : String) (ind : Nat)
    (rest : List Char) :
    parseV f (renderV (jstr s) ind rest) = some (jstr s, rest) := by
  obtain ⟨g, rfl⟩ : ∃ g, f = g + 1 := ⟨f - 1, by omega⟩
  rcases s with ⟨sdata⟩
  rw [renderV_jstr, strChars]
  simp only [parseV]
  have h := parseStrAux_escStr sdata [] rest
  simp at h
  simp [h]

theorem digitChar_ne_keys : ∀ k, k < 10 →
    (Nat.digitChar k ≠ 'n' ∧ Nat.digitChar k ≠ 't' ∧ Nat.digitChar k ≠ 'f' ∧
     Nat.digitChar k ≠ '"' ∧ Nat.digitChar k ≠ '[' ∧ Nat.digitChar k ≠ '\x7b') := by
  decide

theorem parseV_jint {f : Nat} (hf : 1 ≤ f) (i : Int) (ind : Nat)
    (rest : List Char) (hsep : sepHead rest) :
    parseV f (renderV (jint i) ind rest) = some (jint i, rest) := by
  obtain ⟨g, rfl⟩ : ∃ g, f = g + 1 := ⟨f - 1, by omega⟩
  rw [renderV_jint]
  have h := parseIntLit_intChars i rest hsep
  unfold intChars at h ⊢
  by_cases hi : i < 0
  · rw [if_pos hi] at h ⊢
    simp only [parseV]
    simp [h]
  · rw [if_neg hi] at h ⊢
    rw [natChars_eq] at h ⊢
    obtain ⟨k, hk, ds, hds⟩ := digitsSpec_head i.natAbs
    rw [hds] at h ⊢
    obtain ⟨n1, n2, n3, n4, n5, n6⟩ := digitChar_ne_keys k hk
    rw [List.cons_append] at h ⊢
    simp only [parseV]
    simp [n1, n2, n3, n4, n5, n6, h]

theorem parseArrItems_strList :
    ∀ (ss : List String) (s : String) (f : Nat) (acc : List JVal) (ind : Nat)
      (rest : List Char), ss.length + 2 ≤ f →
      parseArrItems f
          (renderV (jstr s) (ind + 2) (renderArrRest (ss.map jstr) ind rest)) acc =
        some (jarr (acc.reverse ++ jstr s :: ss.map jstr), rest) := by
  intro ss
  induction ss with
  | nil =>
      intro s f acc ind rest hf
      obtain ⟨g, rfl⟩ : ∃ g, f = g + 1 := ⟨f - 1, by omega⟩
      rw [parseArrItems_succ, parseV_jstr (by omega)]
      show arrStep g acc (jstr s) (renderArrRest ([].map jstr) ind rest) = _
      rw [arrStep]
      rw [List.map_nil, renderArrRest_nil, skipWs_nl, skipWs_spacesPrep,
        skipWs_cons_not_ws ']' rest (by decide)]
      simp
  | cons s2 ss ih =>
      intro s f acc ind rest hf
      obtain ⟨g, rfl⟩ : ∃ g, f = g + 1 := ⟨f - 1, by omega⟩
      rw [parseArrItems_succ, parseV_jstr (by omega)]
      show arrStep g acc (jstr s) (renderArrRest ((s2 :: ss).map jstr) ind rest) = _
      rw [arrStep]
      rw [List.map_cons, renderArrRest_cons,
        skipWs_cons_not_ws ',' _ (by decide)]
      have hskip : skipWs ('\n' :: spacesPrep (ind + 2)
          (renderV (jstr s2) (ind + 2) (renderArrRest (ss.map jstr) ind rest)))
          = renderV (jstr s2) (ind + 2) (renderArrRest (ss.map jstr) ind rest) := by
        rw [skipWs_nl, skipWs_spacesPrep, skipWs_renderV]
      have hih := ih s2 g (jstr s :: acc) ind rest (by simp at hf ⊢; omega)
      simp [hskip, hih]

theorem parseV_strList {f : Nat} (ss : List String) (ind : Nat)
    (rest : List Char) (hf : ss.length + 3 ≤ f) :
    parseV f (renderV (jarr (ss.map jstr)) ind rest) =
      some (jarr (ss.map jstr), rest) := by
  obtain ⟨g, rfl⟩ : ∃ g, f = g + 1 := ⟨f - 1, by omega⟩
  cases ss with
  | nil =>
      rw [List.map_nil, renderV_jarr_nil]
      simp only [parseV]
      rw [skipWs_cons_not_ws ']' rest (by decide)]
      simp
  | cons s ss =>
      rw [List.map_cons, renderV_jarr_cons]
      simp only [parseV]
      rw [skipWs_nl, skipWs_spacesPrep, skipWs_renderV]
      have harr := parseArrItems_strList ss s g [] ind rest (by simp at hf ⊢; omega)
      rcases s with ⟨sdata⟩
      rw [renderV_jstr, strChars] at harr ⊢
      simp only [harr]
      simp

theorem RtV_mono {v : JVal} {n m : Nat} (h : RtV v n) (hle : n ≤ m) : RtV v m :=
  fun f hf => h f (le_trans hle hf)

theorem RtV_jstr (s : String) : RtV (jstr s) 1 :=
  fun f hf ind rest _ => parseV_jstr hf s ind rest

theorem RtV_jint (i : Int) : RtV (jint i) 1 :=
  fun f hf ind rest hsep => parseV_jint hf i ind rest hsep

theorem RtV_strList (ss : List String) : RtV (jarr (ss.map jstr)) (ss.length + 3) :=
  fun f hf ind rest _ => parseV_strList ss ind rest hf

theorem skipWs_space (t : List Char) : skipWs (' ' :: t) = skipWs t := by
  rw [skipWs.eq_def]
  simp

theorem sepHead_renderObjRest (kvs : List (String × JVal)) (ind : Nat)
    (rest : List Char) : sepHead (renderObjRest kvs ind rest) := by
  intro c hc
  cases kvs with
  | nil =>
      rw [renderObjRest_nil] at hc
      rw [List.head?_cons] at hc
      injection hc with hc2
      exact Or.inr hc2.symm
  | cons kv kvs =>
      rw [renderObjRest_cons] at hc
      rw [List.head?_cons] at hc
      injection hc with hc2
      exact Or.inl hc2.symm

theorem skipWs_strChars (k : String) (t : List Char) :
    skipWs (strChars k t) = strChars k t := by
  rw [strChars]
  exact skipWs_cons_not_ws '"' _ (by decide)

theorem parseObjItems_general (N : Nat) :
    ∀ (kvs : List (String × JVal)) (k : String) (v : JVal) (f : Nat)
      (acc : List (String × JVal)) (ind : Nat) (rest : List Char),
      RtV v N → (∀ kv ∈ kvs, RtV kv.2 N) →
      kvs.length + N + 2 ≤ f → sepHead rest →
      parseObjItems f (strChars k (':' :: ' ' :: renderV v (ind + 2)
          (renderObjRest kvs ind rest))) acc =
        some (jobj (acc.reverse ++ (k, v) :: kvs), rest) := by
  intro kvs
  induction kvs with
  | nil =>
      intro k v f acc ind rest hv hvals hf hrest
      obtain ⟨g, rfl⟩ : ∃ g, f = g + 1 := ⟨f - 1, by omega⟩
      rcases k with ⟨kdata⟩
      rw [strChars, parseObjItems_succ_cons, if_pos rfl]
      have hstr := parseStrAux_escStr kdata []
        (':' :: ' ' :: renderV v (ind + 2) (renderObjRest [] ind rest))
      simp only [List.reverse_nil, List.nil_append] at hstr
      rw [hstr]
      show objStep g acc (String.mk kdata)
        (':' :: ' ' :: renderV v (ind + 2) (renderObjRest [] ind rest)) = _
      rw [objStep, skipWs_cons_not_ws ':' _ (by decide)]
      show (if ':' = ':' then
          (match parseV g (skipWs (' ' ::
              renderV v (ind + 2) (renderObjRest [] ind rest))) with
          | none => none
          | some (v', rest'') =>
              match skipWs rest'' with
              | z :: rest3 =>
                  if z = ',' then
                    parseObjItems g (skipWs rest3) ((String.mk kdata, v') :: acc)
                  else if z = '\x7d' then
                    some (jobj ((String.mk kdata, v') :: acc).reverse, rest3)
                  else none
              | [] => none)
          else none) = _
      rw [if_pos rfl, skipWs_space, skipWs_renderV,
        hv g (by omega) (ind + 2) _ (sepHead_renderObjRest [] ind rest)]
      show (match skipWs (renderObjRest [] ind rest) with
          | z :: rest3 =>
              if z = ',' then
                parseObjItems g (skipWs rest3) ((String.mk kdata, v) :: acc)
              else if z = '\x7d' then
                some (jobj ((String.mk kdata, v) :: acc).reverse, rest3)
              else none
          | [] => none) = _
      rw [renderObjRest_nil, skipWs_nl, skipWs_spacesPrep,
        skipWs_cons_not_ws '\x7d' _ (by decide)]
      simp
  | cons kv2 kvs ih =>
      intro k v f acc ind rest hv hvals hf hrest
      obtain ⟨g, rfl⟩ : ∃ g, f = g + 1 := ⟨f - 1, by omega⟩
      rcases k with ⟨kdata⟩
      rw [strChars, parseObjItems_succ_cons, if_pos rfl]
      have hstr := parseStrAux_escStr kdata []
        (':' :: ' ' :: renderV v (ind + 2) (renderObjRest (kv2 :: kvs) ind rest))
      simp only [List.reverse_nil, List.nil_append] at hstr
      rw [hstr]
      show objStep g acc (String.mk kdata)
        (':' :: ' ' :: renderV v (ind + 2) (renderObjRest (kv2 :: kvs) ind rest)) = _
      rw [objStep, skipWs_cons_not_ws ':' _ (by decide)]
      show (if ':' = ':' then
          (match parseV g (skipWs (' ' ::
              renderV v (ind + 2) (renderObjRest (kv2 :: kvs) ind rest))) with
          | none => none
          | some (v', rest'') =>
              match skipWs rest'' with
              | z :: rest3 =>
                  if z = ',' then
                    parseObjItems g (skipWs rest3) ((String.mk kdata, v') :: acc)
                  else if z = '\x7d' then
                    some (jobj ((String.mk kdata, v') :: acc).reverse, rest3)
                  else none
              | [] => none)
          else none) = _
      rw [if_pos rfl, skipWs_space, skipWs_renderV,
        hv g (by omega) (ind + 2) _ (sepHead_renderObjRest (kv2 :: kvs) ind rest)]
      show (match skipWs (renderObjRest (kv2 :: kvs) ind rest) with
          | z :: rest3 =>
              if z = ',' then
                parseObjItems g (skipWs rest3) ((String.mk kdata, v) :: acc)
              else if z = '\x7d' then
                some (jobj ((String.mk kdata, v) :: acc).reverse, rest3)
              else none
          | [] => none) = _
      rw [renderObjRest_cons, skipWs_cons_not_ws ',' _ (by decide)]
      show (if ',' = ',' then
            parseObjItems g
              (skipWs ('\n' :: spacesPrep (ind + 2) (strChars kv2.1 (':' :: ' ' ::
                renderV kv2.2 (ind + 2) (renderObjRest kvs ind rest)))))
              ((String.mk kdata, v) :: acc)
          else if ',' = '\x7d' then
            some (jobj ((String.mk kdata, v) :: acc).reverse,
              '\n' :: spacesPrep (ind + 2) (strChars kv2.1 (':' :: ' ' ::
                renderV kv2.2 (ind + 2) (renderObjRest kvs ind rest))))
          else none) = _
      rw [if_pos rfl, skipWs_nl, skipWs_spacesPrep, skipWs_strChars]
      rw [ih kv2.1 kv2.2 g ((String.mk kdata, v) :: acc) ind rest
        (hvals kv2 (List.mem_cons_self kv2 kvs))
        (fun kv hkv => hvals kv (List.mem_cons_of_mem kv2 hkv))
        (by simp only [List.length_cons] at hf; omega) hrest]
      simp

theorem parseV_obj (N : Nat) (kvs : List (String × JVal))
    (hvals : ∀ kv ∈ kvs, RtV kv.2 N) {f : Nat} (hf : kvs.length + N + 3 ≤ f)
    (ind : Nat) (rest : List Char) (hrest : sepHead rest) :
    parseV f (renderV (jobj kvs) ind rest) = some (jobj kvs, rest) := by
  obtain ⟨g, rfl⟩ : ∃ g, f = g + 1 := ⟨f - 1, by omega⟩
  cases kvs with
  | nil =>
      rw [renderV_jobj_nil]
      simp only [parseV]
      rw [skipWs_cons_not_ws '\x7d' rest (by decide)]
      simp
  | cons kv kvs2 =>
      rw [renderV_jobj_cons]
      simp only [parseV]
      rw [skipWs_nl, skipWs_spacesPrep, skipWs_strChars]
      have hobj := parseObjItems_general N kvs2 kv.1 kv.2 g [] ind rest
        (hvals kv (List.mem_cons_self kv kvs2))
        (fun kv' h => hvals kv' (List.mem_cons_of_mem _ h))
        (by simp only [List.length_cons] at hf; omega) hrest
      rw [strChars] at hobj ⊢
      simp [hobj]

theorem RtV_jobj (N : Nat) (kvs : List (String × JVal))
    (hvals : ∀ kv ∈ kvs, RtV kv.2 N) :
    RtV (jobj kvs) (kvs.length + N + 3) :=
  fun _ hf ind rest hsep => parseV_obj N kvs hvals hf ind rest hsep

theorem RtV_encodeStrList (ss : List String) : RtV (encodeStrList ss) (ss.length + 3) :=
  RtV_strList ss

theorem RtV_encodeMetrics (ms : List (String × String)) :
    RtV (encodeMetrics ms) (ms.length + 4) := by
  have hvals : ∀ kv ∈ ms.map fun kv => (kv.1, jstr kv.2), RtV kv.2 1 := by
    intro kv hkv
    rcases List.mem_map.mp hkv with ⟨a, _, rfl⟩
    exact RtV_jstr _
  have h := RtV_jobj 1 (ms.map fun kv => (kv.1, jstr kv.2)) hvals
  rw [List.length_map] at h
  exact h

theorem RtV_encodeAggregated (a : AggregatedKnowledge) :
    RtV (encodeAggregated a)
      (a.investment_principles.length + a.key_insights.length +
        a.memorable_quotes.length + a.quantitative_metrics.length +
        a.chunk_summaries.length + 13) := by
  have hvals : ∀ kv ∈
      [("investment_principles", encodeStrList a.investment_principles),
       ("key_insights", encodeStrList a.key_insights),
       ("memorable_quotes", encodeStrList a.memorable_quotes),
       ("quantitative_metrics", encodeMetrics a.quantitative_metrics),
       ("chunk_summaries", encodeStrList a.chunk_summaries),
       ("total_processed_chunks", jint a.total_processed_chunks)],
      RtV kv.2
        (a.investment_principles.length + a.key_insights.length +
          a.memorable_quotes.length + a.quantitative_metrics.length +
          a.chunk_summaries.length + 4) := by
    intro kv hkv
    simp only [List.mem_cons, List.not_mem_nil, or_false] at hkv
    rcases hkv with h | h | h | h | h | h <;> subst h
    · exact RtV_mono (RtV_encodeStrList _) (by omega)
    · exact RtV_mono (RtV_encodeStrList _) (by omega)
    · exact RtV_mono (RtV_encodeStrList _) (by omega)
    · exact RtV_mono (RtV_encodeMetrics _) (by omega)
    · exact RtV_mono (RtV_encodeStrList _) (by omega)
    · exact RtV_mono (RtV_jint _) (by omega)
  have h := RtV_jobj _ _ hvals
  exact RtV_mono h (by simp; omega)

theorem RtV_statsObj (st : ProcessingStats) :
    RtV (jobj [("total_tokens", jint st.total_tokens),
               ("tokens_per_chunk", jint st.tokens_per_chunk),
               ("overlap_tokens", jint st.overlap_tokens)]) 7 := by
  have hvals : ∀ kv ∈
      [("total_tokens", jint st.total_tokens),
       ("tokens_per_chunk", jint st.tokens_per_chunk),
       ("overlap_tokens", jint st.overlap_tokens)], RtV kv.2 1 := by
    intro kv hkv
    simp only [List.mem_cons, List.not_mem_nil, or_false] at hkv
    rcases hkv with h | h | h <;> subst h <;> exact RtV_jint _
  have h := RtV_jobj 1 _ hvals
  exact RtV_mono h (by simp)

theorem RtV_encodeRecord (r : SavedRecord) :
    RtV (encodeRecord r)
      (r.aggregated.investment_principles.length + r.aggregated.key_insights.length +
        r.aggregated.memorable_quotes.length + r.aggregated.quantitative_metrics.length +
        r.aggregated.chunk_summaries.length + 21) := by
  have hvals : ∀ kv ∈
      [("total_chunks", jint r.total_chunks),
       ("successful_chunks", jint r.successful_chunks),
       ("failed_chunks", jint r.failed_chunks),
       ("aggregated_knowledge", encodeAggregated r.aggregated),
       ("processing_stats",
          jobj [("total_tokens", jint r.stats.total_tokens),
                ("tokens_per_chunk", jint r.stats.tokens_per_chunk),
                ("overlap_tokens", jint r.stats.overlap_tokens)])],
      RtV kv.2
        (r.aggregated.investment_principles.length + r.aggregated.key_insights.length +
          r.aggregated.memorable_quotes.length +
          r.aggregated.quantitative_metrics.length +
          r.aggregated.chunk_summaries.length + 13) := by
    intro kv hkv
    simp only [List.mem_cons, List.not_mem_nil, or_false] at hkv
    rcases hkv with h | h | h | h | h <;> subst h
    · exact RtV_mono (RtV_jint _) (by omega)
    · exact RtV_mono (RtV_jint _) (by omega)
    · exact RtV_mono (RtV_jint _) (by omega)
    · exact RtV_mono (RtV_encodeAggregated _) (by omega)
    · exact RtV_mono (RtV_statsObj _) (by omega)
  have h := RtV_jobj _ _ hvals
  exact RtV_mono h (by simp; omega)

/-! ### Persistence round-trip: the rendering is at least as long as the
fuel the parser needs -/

theorem escChar_len (c : Char) (t : List Char) :
    t.length + 1 ≤ (escChar c t).length := by
  unfold escChar
  split_ifs <;> simp

theorem escStr_len (cs t : List Char) : t.length ≤ (escStr cs t).length := by
  induction cs with
  | nil => simp [escStr]
  | cons c cs ih =>
      show t.length ≤ (escChar c (escStr cs t)).length
      have h2 := escChar_len c (escStr cs t)
      omega

theorem strChars_len (k : String) (t : List Char) :
    t.length + 2 ≤ (strChars k t).length := by
  rw [strChars]
  have h := escStr_len k.data ('"' :: t)
  simp at h ⊢
  omega

theorem intChars_len (i : Int) (t : List Char) :
    t.length + 1 ≤ (intChars i t).length := by
  unfold intChars
  obtain ⟨k, hk, ds, hds⟩ := digitsSpec_head i.natAbs
  split_ifs <;> simp [natChars_eq, hds] <;> omega

theorem renderV_jint_len (i : Int) (ind : Nat) (t : List Char) :
    t.length + 1 ≤ (renderV (jint i) ind t).length := by
  rw [renderV_jint]
  exact intChars_len i t

theorem objItemChain (k : String) (v : JVal) (kvs : List (String × JVal))
    (ind : Nat) (t : List Char) :
    (renderV v (ind + 2) (renderObjRest kvs ind t)).length + 6 ≤
      (renderObjRest ((k, v) :: kvs) ind t).length := by
  rw [renderObjRest_cons]
  have h := strChars_len k
    (':' :: ' ' :: renderV v (ind + 2) (renderObjRest kvs ind t))
  simp [spacesPrep] at h ⊢
  omega

theorem objHeadChain (k : String) (v : JVal) (kvs : List (String × JVal))
    (ind : Nat) (t : List Char) :
    (renderV v (ind + 2) (renderObjRest kvs ind t)).length + 6 ≤
      (renderV (jobj ((k, v) :: kvs)) ind t).length := by
  rw [renderV_jobj_cons]
  have h := strChars_len k
    (':' :: ' ' :: renderV v (ind + 2) (renderObjRest kvs ind t))
  simp [spacesPrep] at h ⊢
  omega

theorem renderObjRest_nil_len (ind : Nat) (t : List Char) :
    t.length + 2 ≤ (renderObjRest [] ind t).length := by
  rw [renderObjRest_nil]
  simp [spacesPrep]

theorem renderArrRest_strs_len :
    ∀ (ss : List String) (ind : Nat) (t : List Char),
      ss.length + t.length + 2 ≤ (renderArrRest (ss.map jstr) ind t).length := by
  intro ss
  induction ss with
  | nil =>
      intro ind t
      rw [List.map_nil, renderArrRest_nil]
      simp [spacesPrep]
  | cons s ss ih =>
      intro ind t
      rw [List.map_cons, renderArrRest_cons, renderV_jstr]
      have h1 := strChars_len s (renderArrRest (ss.map jstr) ind t)
      have h2 := ih ind t
      simp [spacesPrep] at h1 ⊢
      omega

theorem renderV_strList_len (ss : List String) (ind : Nat) (t : List Char) :
    ss.length + t.length + 2 ≤ (renderV (encodeStrList ss) ind t).length := by
  cases ss with
  | nil =>
      show _ ≤ (renderV (jarr []) ind t).length
      rw [renderV_jarr_nil]
      simp
  | cons s ss =>
      show _ ≤ (renderV (jarr (jstr s :: ss.map jstr)) ind t).length
      rw [renderV_jarr_cons, renderV_jstr]
      have h1 := strChars_len s (renderArrRest (ss.map jstr) ind t)
      have h2 := renderArrRest_strs_len ss ind t
      simp [spacesPrep] at h1 ⊢
      omega

theorem renderObjRest_metrics_len :
    ∀ (ms : List (String × String)) (ind : Nat) (t : List Char),
      ms.length + t.length + 2 ≤
        (renderObjRest (ms.map fun kv => (kv.1, jstr kv.2)) ind t).length := by
  intro ms
  induction ms with
  | nil =>
      intro ind t
      rw [List.map_nil]
      simpa using renderObjRest_nil_len ind t
  | cons m ms ih =>
      intro ind t
      rw [List.map_cons]
      have h1 := objItemChain m.1 (jstr m.2) (ms.map fun kv => (kv.1, jstr kv.2)) ind t
      have h2 := ih ind t
      rw [renderV_jstr] at h1
      have h3 := strChars_len m.2
        (renderObjRest (ms.map fun kv => (kv.1, jstr kv.2)) ind t)
      simp at h1 h2 h3 ⊢
      omega

theorem renderV_metrics_len (ms : List (String × String)) (ind : Nat)
    (t : List Char) :
    ms.length + t.length + 2 ≤ (renderV (encodeMetrics ms) ind t).length := by
  cases ms with
  | nil =>
      show _ ≤ (renderV (jobj []) ind t).length
      rw [renderV_jobj_nil]
      simp
  | cons m ms =>
      show _ ≤ (renderV (jobj ((m.1, jstr m.2) :: ms.map fun kv => (kv.1, jstr kv.2))) ind t).length
      have h1 := objHeadChain m.1 (jstr m.2) (ms.map fun kv => (kv.1, jstr kv.2)) ind t
      rw [renderV_jstr] at h1
      have h2 := strChars_len m.2
        (renderObjRest (ms.map fun kv => (kv.1, jstr kv.2)) ind t)
      have h3 := renderObjRest_metrics_len ms ind t
      simp at h1 h2 h3 ⊢
      omega

theorem renderV_aggregated_len (a : AggregatedKnowledge) (ind : Nat)
    (t : List Char) :
    a.investment_principles.length + a.key_insights.length +
      a.memorable_quotes.length + a.quantitative_metrics.length +
      a.chunk_summaries.length + t.length + 13 ≤
      (renderV (encodeAggregated a) ind t).length := by
  have h1 := renderObjRest_nil_len ind t
  have h2 := objItemChain "total_processed_chunks" (jint a.total_processed_chunks) [] ind t
  have h2v := renderV_jint_len a.total_processed_chunks (ind + 2)
    (renderObjRest [] ind t)
  have h3 := objItemChain "chunk_summaries" (encodeStrList a.chunk_summaries)
    [("total_processed_chunks", jint a.total_processed_chunks)] ind t
  have h3v := renderV_strList_len a.chunk_summaries (ind + 2)
    (renderObjRest [("total_processed_chunks", jint a.total_processed_chunks)] ind t)
  have h4 := objItemChain "quantitative_metrics" (encodeMetrics a.quantitative_metrics)
    [("chunk_summaries", encodeStrList a.chunk_summaries),
     ("total_processed_chunks", jint a.total_processed_chunks)] ind t
  have h4v := renderV_metrics_len a.quantitative_metrics (ind + 2)
    (renderObjRest [("chunk_summaries", encodeStrList a.chunk_summaries),
      ("total_processed_chunks", jint a.total_processed_chunks)] ind t)
  have h5 := objItemChain "memorable_quotes" (encodeStrList a.memorable_quotes)
    [("quantitative_metrics", encodeMetrics a.quantitative_metrics),
     ("chunk_summaries", encodeStrList a.chunk_summaries),
     ("total_processed_chunks", jint a.total_processed_chunks)] ind t
  have h5v := renderV_strList_len a.memorable_quotes (ind + 2)
    (renderObjRest [("quantitative_metrics", encodeMetrics a.quantitative_metrics),
      ("chunk_summaries", encodeStrList a.chunk_summaries),
      ("total_processed_chunks", jint a.total_processed_chunks)] ind t)
  have h6 := objItemChain "key_insights" (encodeStrList a.key_insights)
    [("memorable_quotes", encodeStrList a.memorable_quotes),
     ("quantitative_metrics", encodeMetrics a.quantitative_metrics),
     ("chunk_summaries", encodeStrList a.chunk_summaries),
     ("total_processed_chunks", jint a.total_processed_chunks)] ind t
  have h6v := renderV_strList_len a.key_insights (ind + 2)
    (renderObjRest [("memorable_quotes", encodeStrList a.memorable_quotes),
      ("quantitative_metrics", encodeMetrics a.quantitative_metrics),
      ("chunk_summaries", encodeStrList a.chunk_summaries),
      ("total_processed_chunks", jint a.total_processed_chunks)] ind t)
  have h7 := objHeadChain "investment_principles" (encodeStrList a.investment_principles)
    [("key_insights", encodeStrList a.key_insights),
     ("memorable_quotes", encodeStrList a.memorable_quotes),
     ("quantitative_metrics", encodeMetrics a.quantitative_metrics),
     ("chunk_summaries", encodeStrList a.chunk_summaries),
     ("total_processed_chunks", jint a.total_processed_chunks)] ind t
  have h7v := renderV_strList_len a.investment_principles (ind + 2)
    (renderObjRest [("key_insights", encodeStrList a.key_insights),
      ("memorable_quotes", encodeStrList a.memorable_quotes),
      ("quantitative_metrics", encodeMetrics a.quantitative_metrics),
      ("chunk_summaries", encodeStrList a.chunk_summaries),
      ("total_processed_chunks", jint a.total_processed_chunks)] ind t)
  show _ ≤ (renderV (jobj _) ind t).length
  omega

theorem renderV_record_len (r : SavedRecord) (ind : Nat) (t : List Char) :
    r.aggregated.investment_principles.length + r.aggregated.key_insights.length +
      r.aggregated.memorable_quotes.length + r.aggregated.quantitative_metrics.length +
      r.aggregated.chunk_summaries.length + t.length + 21 ≤
      (renderV (encodeRecord r) ind t).length := by
  have h1 := renderObjRest_nil_len ind t
  have hstats :
      ∀ t' : List Char, t'.length + 7 ≤
        (renderV (jobj [("total_tokens", jint r.stats.total_tokens),
          ("tokens_per_chunk", jint r.stats.tokens_per_chunk),
          ("overlap_tokens", jint r.stats.overlap_tokens)]) (ind + 2) t').length := by
    intro t'
    have s1 := renderObjRest_nil_len (ind + 2) t'
    have s2 := objItemChain "overlap_tokens" (jint r.stats.overlap_tokens) [] (ind + 2) t'
    have s2v := renderV_jint_len r.stats.overlap_tokens (ind + 2 + 2)
      (renderObjRest [] (ind + 2) t')
    have s3 := objItemChain "tokens_per_chunk" (jint r.stats.tokens_per_chunk)
      [("overlap_tokens", jint r.stats.overlap_tokens)] (ind + 2) t'
    have s3v := renderV_jint_len r.stats.tokens_per_chunk (ind + 2 + 2)
      (renderObjRest [("overlap_tokens", jint r.stats.overlap_tokens)] (ind + 2) t')
    have s4 := objHeadChain "total_tokens" (jint r.stats.total_tokens)
      [("tokens_per_chunk", jint r.stats.tokens_per_chunk),
       ("overlap_tokens", jint r.stats.overlap_tokens)] (ind + 2) t'
    have s4v := renderV_jint_len r.stats.total_tokens (ind + 2 + 2)
      (renderObjRest [("tokens_per_chunk", jint r.stats.tokens_per_chunk),
        ("overlap_tokens", jint r.stats.overlap_tokens)] (ind + 2) t')
    omega
  have h2 := objItemChain "processing_stats"
      (jobj [("total_tokens", jint r.stats.total_tokens),
        ("tokens_per_chunk", jint r.stats.tokens_per_chunk),
        ("overlap_tokens", jint r.stats.overlap_tokens)]) [] ind t
  have h2v := hstats (renderObjRest [] ind t)
  have h3 := objItemChain "aggregated_knowledge" (encodeAggregated r.aggregated)
    [("processing_stats",
      jobj [("total_tokens", jint r.stats.total_tokens),
        ("tokens_per_chunk", jint r.stats.tokens_per_chunk),
        ("overlap_tokens", jint r.stats.overlap_tokens)])] ind t
  have h3v := renderV_aggregated_len r.aggregated (ind + 2)
    (renderObjRest [("processing_stats",
      jobj [("total_tokens", jint r.stats.total_tokens),
        ("tokens_per_chunk", jint r.stats.tokens_per_chunk),
        ("overlap_tokens", jint r.stats.overlap_tokens)])] ind t)
  have h4 := objItemChain "failed_chunks" (jint r.failed_chunks)
    [("aggregated_knowledge", encodeAggregated r.aggregated),
     ("processing_stats",
      jobj [("total_tokens", jint r.stats.total_tokens),
        ("tokens_per_chunk", jint r.stats.tokens_per_chunk),
        ("overlap_tokens", jint r.stats.overlap_tokens)])] ind t
  have h4v := renderV_jint_len r.failed_chunks (ind + 2)
    (renderObjRest [("aggregated_knowledge", encodeAggregated r.aggregated),
      ("processing_stats",
        jobj [("total_tokens", jint r.stats.total_tokens),
          ("tokens_per_chunk", jint r.stats.tokens_per_chunk),
          ("overlap_tokens", jint r.stats.overlap_tokens)])] ind t)
  have h5 := objItemChain "successful_chunks" (jint r.successful_chunks)
    [("failed_chunks", jint r.failed_chunks),
     ("aggregated_knowledge", encodeAggregated r.aggregated),
     ("processing_stats",
      jobj [("total_tokens", jint r.stats.total_tokens),
        ("tokens_per_chunk", jint r.stats.tokens_per_chunk),
        ("overlap_tokens", jint r.stats.overlap_tokens)])] ind t
  have h5v := renderV_jint_len r.successful_chunks (ind + 2)
    (renderObjRest [("failed_chunks", jint r.failed_chunks),
      ("aggregated_knowledge", encodeAggregated r.aggregated),
      ("processing_stats",
        jobj [("total_tokens", jint r.stats.total_tokens),
          ("tokens_per_chunk", jint r.stats.tokens_per_chunk),
          ("overlap_tokens", jint r.stats.overlap_tokens)])] ind t)
  have h6 := objHeadChain "total_chunks" (jint r.total_chunks)
    [("successful_chunks", jint r.successful_chunks),
     ("failed_chunks", jint r.failed_chunks),
     ("aggregated_knowledge", encodeAggregated r.aggregated),
     ("processing_stats",
      jobj [("total_tokens", jint r.stats.total_tokens),
        ("tokens_per_chunk", jint r.stats.tokens_per_chunk),
        ("overlap_tokens", jint r.stats.overlap_tokens)])] ind t
  have h6v := renderV_jint_len r.total_chunks (ind + 2)
    (renderObjRest [("successful_chunks", jint r.successful_chunks),
      ("failed_chunks", jint r.failed_chunks),
      ("aggregated_knowledge", encodeAggregated r.aggregated),
      ("processing_stats",
        jobj [("total_tokens", jint r.stats.total_tokens),
          ("tokens_per_chunk", jint r.stats.tokens_per_chunk),
          ("overlap_tokens", jint r.stats.overlap_tokens)])] ind t)
  show _ ≤ (renderV (jobj _) ind t).length
  omega

/-- The indent-2 rendering of any saved record parses back to exactly the
same value. -/
theorem jsonParse_encodeRecord (r : SavedRecord) :
    jsonParse (dumpPretty (encodeRecord r)) = some (encodeRecord r) := by
  unfold jsonParse dumpPretty
  have hdata : (String.mk (renderV (encodeRecord r) 0 [])).data =
      renderV (encodeRecord r) 0 [] := rfl
  rw [hdata, skipWs_renderV]
  have hneed := RtV_encodeRecord r
  have hlen := renderV_record_len r 0 []
  have hparse := hneed ((renderV (encodeRecord r) 0 []).length + 1)
    (by simp at hlen; omega) 0 [] (fun c hc => by simp at hc)
  rw [hparse]
  simp [skipWs]

/-- C7: `save_processed_knowledge` followed by `load_processed_knowledge` on
the same path restores the saved record exactly, for every
processed-knowledge record of the persisted shape — in particular for the
empty, the singleton and the 1000-item digest.  The effective pair is
`json.dump(..., indent=2)` and a whole-file `json.load`, which round-trips
(the shadowed first copy's single-line format also parses with `json.load`,
but only the effective pair is modelled here). -/
theorem save_load_roundtrip (r : SavedRecord) (fs : FileSystem) (path : String)
    (pk : JVal) :
    load_processed_knowledge (save_processed_knowledge fs path (encodeRecord r))
      path pk = (true, encodeRecord r) := by
  have h : save_processed_knowledge fs path (encodeRecord r) path
      = some (dumpPretty (encodeRecord r)) := by
    unfold save_processed_knowledge; rw [if_pos rfl]
  unfold load_processed_knowledge
  rw [h]
  show (match jsonParse (dumpPretty (encodeRecord r)) with
        | none => (false, pk)
        | some v => (true, v)) = (true, encodeRecord r)
  rw [jsonParse_encodeRecord r]

end KnowledgeChunkingService
